import Mathlib

/-!
# Verification of the Loxone Miniserver WebSocket protocol engine

A shallow embedding of `src/ws.rs` from the `almightycouch/loxone` crate:
the binary event-table codecs, the message-header parser, UUID rendering,
the JSON reply handlers, the password/token hashing helpers, and the
AES-CBC command encryption pipeline, together with theorems settling the
specification's claims about them.

Conventions:
* Bytes are `Nat` values; where a property depends on a value fitting in a
  byte we carry an explicit `< 256` hypothesis.
* Rust panics (`unwrap`, failed `assert…`, `panic!`) are modelled as `none`
  of an `Option` result.
* `f64` fields are never computed with by the source — they are read from
  the wire and stored — so they are modelled as their raw 8-byte
  little-endian representation.
* External cryptographic primitives (the AES-256 block cipher, SHA-1 and
  SHA-256 compression) live in third-party crates; they are taken as
  function parameters, while every construction the source builds on top
  of them (CBC chaining, PKCS7 padding, HMAC, hex, base64,
  percent-encoding) is defined concretely.
-/

namespace Loxone

/-! ## Byte-stream readers

The Rust source reads from a `Cursor<Vec<u8>>` at a byte position.  We model
the buffer as `List Nat` and a cursor position as a `Nat`; a read that the
`Cursor` would fail (`read_exact` / `read_uXX` past the end, which the source
`unwrap`s) is `none`. -/

/-- Read `n` raw bytes at position `pos`; `none` iff fewer than `n` bytes
remain (a `read_exact` failure, which the source unwraps into a panic). -/
def readBytes (body : List Nat) (pos n : Nat) : Option (List Nat) :=
  if pos + n ≤ body.length then some ((body.drop pos).take n) else none

/-- Little-endian value of a byte list (least significant byte first). -/
def leVal : List Nat → Nat
  | [] => 0
  | b :: bs => b + 256 * leVal bs

/-- Rust `read_u32::<LittleEndian>` at `pos`. -/
def readU32LE (body : List Nat) (pos : Nat) : Option Nat :=
  (readBytes body pos 4).map leVal

/-- Rust `read_u16::<LittleEndian>` at `pos`. -/
def readU16LE (body : List Nat) (pos : Nat) : Option Nat :=
  (readBytes body pos 2).map leVal

/-- Rust `read_u8` at `pos`. -/
def readU8 (body : List Nat) (pos : Nat) : Option Nat :=
  (readBytes body pos 1).map leVal

/-- Two's-complement reinterpretation of a `u32` as an `i32`
(`read_i32::<LittleEndian>` reads the same four bytes). -/
def i32OfU32 (u : Nat) : Int :=
  if u < 2 ^ 31 then (u : Int) else (u : Int) - 2 ^ 32

/-- Rust `read_i32::<LittleEndian>` at `pos`. -/
def readI32LE (body : List Nat) (pos : Nat) : Option Int :=
  (readU32LE body pos).map i32OfU32

/-! ## Lowercase hex rendering (Rust `format!("{:0Nx}", _)`) -/

/-- The lowercase hex digit for `n % 16`, as a character. -/
def hexDigit (n : Nat) : Char :=
  if n % 16 < 10 then Char.ofNat (48 + n % 16) else Char.ofNat (87 + n % 16)

/-- Exactly `w` lowercase hex digits of `n`, most significant first:
`format!("{:0wx}", n)` for `n < 16 ^ w`. -/
def hexFixed : Nat → Nat → List Char
  | 0, _ => []
  | w + 1, n => hexFixed w (n / 16) ++ [hexDigit n]

/-- Rust `format!("{:08x}", n)` as a string. -/
def hex8 (n : Nat) : String := ⟨hexFixed 8 n⟩

/-- Rust `format!("{:04x}", n)` as a string. -/
def hex4 (n : Nat) : String := ⟨hexFixed 4 n⟩

/-- Rust `format!("{:02x}", n)` as a string. -/
def hex2 (n : Nat) : String := ⟨hexFixed 2 n⟩

/-- The concatenation of the `{:02x}` renderings of a byte list (the last
segment of the UUID format string, and `hex::encode`). -/
def hexBytes (l : List Nat) : String := ⟨(l.map (hexFixed 2)).flatten⟩

/-! ## `parse_uuid` (ws.rs:684–691)

Reads a little-endian `u32`, two little-endian `u16`s and 8 raw bytes from
the cursor and renders
`format!("{:08x}-{:04x}-{:04x}-{:02x}…{:02x}", d1, d2, d3, d4[0], …, d4[7])`. -/

/-- Rust `parse_uuid` at cursor position `pos`: `none` iff fewer than 16 bytes
remain past `pos`. -/
def parse_uuid_at (body : List Nat) (pos : Nat) : Option String := do
  let d1 ← readU32LE body pos
  let d2 ← readU16LE body (pos + 4)
  let d3 ← readU16LE body (pos + 6)
  let d4 ← readBytes body (pos + 8) 8
  some (hex8 d1 ++ "-" ++ hex4 d2 ++ "-" ++ hex4 d3 ++ "-" ++ hexBytes d4)

/-- A character of a canonically rendered UUID: a dash, a decimal digit, or a
lowercase hex letter. -/
def isUuidChar (c : Char) : Bool :=
  c = '-' || ('0' ≤ c && c ≤ '9') || ('a' ≤ c && c ≤ 'f')

/-! ## UTF-8 validity (Rust `String::from_utf8`)

`parse_msg_body` converts each text buffer with `String::from_utf8(..).unwrap()`,
which panics on invalid UTF-8.  The validator below accepts exactly the valid
UTF-8 byte sequences (continuation ranges, no overlongs, no surrogates,
maximum U+10FFFF), matching Rust's definition. -/

/-- A UTF-8 continuation byte: `0x80..=0xBF`. -/
def utf8Cont (b : Nat) : Bool := 128 ≤ b && b ≤ 191

/-- Rust's UTF-8 validity check over raw bytes. -/
def utf8Valid : List Nat → Bool
  | [] => true
  | b :: rest =>
    if b ≤ 0x7F then utf8Valid rest
    else if 0xC2 ≤ b && b ≤ 0xDF then
      match rest with
      | c1 :: r => utf8Cont c1 && utf8Valid r
      | [] => false
    else if b = 0xE0 then
      match rest with
      | c1 :: c2 :: r => (0xA0 ≤ c1 && c1 ≤ 0xBF) && utf8Cont c2 && utf8Valid r
      | _ => false
    else if (0xE1 ≤ b && b ≤ 0xEC) || (0xEE ≤ b && b ≤ 0xEF) then
      match rest with
      | c1 :: c2 :: r => utf8Cont c1 && utf8Cont c2 && utf8Valid r
      | _ => false
    else if b = 0xED then
      match rest with
      | c1 :: c2 :: r => (0x80 ≤ c1 && c1 ≤ 0x9F) && utf8Cont c2 && utf8Valid r
      | _ => false
    else if b = 0xF0 then
      match rest with
      | c1 :: c2 :: c3 :: r =>
        (0x90 ≤ c1 && c1 ≤ 0xBF) && utf8Cont c2 && utf8Cont c3 && utf8Valid r
      | _ => false
    else if 0xF1 ≤ b && b ≤ 0xF3 then
      match rest with
      | c1 :: c2 :: c3 :: r => utf8Cont c1 && utf8Cont c2 && utf8Cont c3 && utf8Valid r
      | _ => false
    else if b = 0xF4 then
      match rest with
      | c1 :: c2 :: c3 :: r =>
        (0x80 ≤ c1 && c1 ≤ 0x8F) && utf8Cont c2 && utf8Cont c3 && utf8Valid r
      | _ => false
    else false

/-! ## Event-table data model (ws.rs:72–87, loxapp3 record types)

`f64` fields are stored as their raw 8-byte little-endian representation:
the source never computes with them, it only moves them from the wire into
the record.  Decoded text is kept as its (UTF-8-valid) byte list. -/

/-- Rust `LoxoneDaytimerEntry` (declared in `src/loxapp3.rs`, populated at
ws.rs:622–627): four `i32` fields and an `f64` value. -/
structure LoxoneDaytimerEntry where
  mode : Int
  «from» : Int
  «to» : Int
  need_activate : Int
  value : List Nat
deriving DecidableEq

/-- Rust `LoxoneWeatherEntry` (declared in `src/loxapp3.rs`, populated at
ws.rs:649–672): five `i32` fields and six `f64` fields.  The field name
`barometic_pressure` keeps the source's spelling. -/
structure LoxoneWeatherEntry where
  timestamp : Int
  weather_type : Int
  wind_direction : Int
  solar_radiation : Int
  relative_humidity : Int
  temperature : List Nat
  perceived_temperature : List Nat
  dew_point : List Nat
  precipitation : List Nat
  wind_speed : List Nat
  barometic_pressure : List Nat
deriving DecidableEq

/-- Rust `struct ValueEvent(LoxoneUUID, f64)` (ws.rs:73). -/
structure ValueEvent where
  uuid : String
  value : List Nat
deriving DecidableEq

/-- Rust `struct TextEvent(LoxoneUUID, LoxoneUUID, String)` (ws.rs:75): state
UUID, icon UUID, text. -/
structure TextEvent where
  uuid : String
  icon : String
  text : List Nat
deriving DecidableEq

/-- Rust `struct DaytimerEvent(LoxoneUUID, f64, Vec<LoxoneDaytimerEntry>)` (ws.rs:77). -/
structure DaytimerEvent where
  uuid : String
  default : List Nat
  entries : List LoxoneDaytimerEntry
deriving DecidableEq

/-- Rust `struct WeatherEvent(LoxoneUUID, u32, Vec<LoxoneWeatherEntry>)` (ws.rs:79). -/
structure WeatherEvent where
  uuid : String
  last_update : Nat
  entries : List LoxoneWeatherEntry
deriving DecidableEq

/-- Rust `enum EventTable` (ws.rs:82–87). -/
inductive EventTable where
  | ValueEvents (events : List ValueEvent)
  | TextEvents (events : List TextEvent)
  | DaytimerEvents (events : List DaytimerEvent)
  | WeatherEvents (events : List WeatherEvent)
deriving DecidableEq

/-! ## Record parsers (one loop iteration of `parse_msg_body`, ws.rs:571–681)

Each parser reads one record at cursor position `pos` and returns the
record together with the cursor position after it; `none` models the
`unwrap` panics (short read, invalid UTF-8, negative `entries-length`). -/

/-- One `ValueEvent` record (ws.rs:576–579): UUID (16 bytes) then `f64`
value (8 bytes); the cursor advances by 24. -/
def parseValueRec (body : List Nat) (pos : Nat) : Option (ValueEvent × Nat) := do
  let uuid ← parse_uuid_at body pos
  let val ← readBytes body (pos + 16) 8
  some (⟨uuid, val⟩, pos + 24)

/-- The padding the `TextEvent` decoder skips after `text_len` text bytes
(ws.rs:599–604): `match text_len % 4 { 0 => 0, r => 4 - r }`. -/
def padOf (textLen : Nat) : Nat :=
  match textLen % 4 with
  | 0 => 0
  | r => 4 - r

/-- One `TextEvent` record (ws.rs:591–605): UUID, icon UUID, `u32`
text length, the text bytes (must be valid UTF-8) and a seek over the
padding to the next multiple of 4.  `Cursor::seek` does not bounds-check,
so the padding skip always succeeds. -/
def parseTextRec (body : List Nat) (pos : Nat) : Option (TextEvent × Nat) := do
  let uuid ← parse_uuid_at body pos
  let uuid_icon ← parse_uuid_at body (pos + 16)
  let text_len ← readU32LE body (pos + 32)
  let text_buf ← readBytes body (pos + 36) text_len
  if utf8Valid text_buf then
    some (⟨uuid, uuid_icon, text_buf⟩, pos + 36 + text_len + padOf text_len)
  else none

/-- One iteration of the `for _ in 0..entries_len` loop of the daytimer
decoder (ws.rs:622–627): four `i32`s and one `f64`, 24 bytes starting at
`pos`. -/
def parseDaytimerEntry (body : List Nat) (pos : Nat) :
    Option LoxoneDaytimerEntry := do
  let mode ← readI32LE body pos
  let fromv ← readI32LE body (pos + 4)
  let tov ← readI32LE body (pos + 8)
  let need_activate ← readI32LE body (pos + 12)
  let value ← readBytes body (pos + 16) 8
  some ⟨mode, fromv, tov, need_activate, value⟩

/-- The `for _ in 0..entries_len` loop of the daytimer decoder
(ws.rs:621–628): `n` consecutive 24-byte entries. -/
def parseDaytimerEntries (body : List Nat) :
    Nat → Nat → Option (List LoxoneDaytimerEntry × Nat)
  | pos, 0 => some ([], pos)
  | pos, n + 1 => do
    let e ← parseDaytimerEntry body pos
    let (rest, p) ← parseDaytimerEntries body (pos + 24) n
    some (e :: rest, p)

/-- One `DaytimerEvent` record (ws.rs:616–629): UUID, `f64` default,
`i32` entry count (negative counts panic in `try_into().unwrap()`),
then the entries. -/
def parseDaytimerRec (body : List Nat) (pos : Nat) : Option (DaytimerEvent × Nat) := do
  let uuid ← parse_uuid_at body pos
  let default_val ← readBytes body (pos + 16) 8
  let entries_len ← readI32LE body (pos + 24)
  if entries_len < 0 then none
  else do
    let (entries, p) ← parseDaytimerEntries body (pos + 28) entries_len.toNat
    some (⟨uuid, default_val, entries⟩, p)

/-- One iteration of the `for _ in 0..entries_len` loop of the weather
decoder (ws.rs:649–672): five `i32`s and six `f64`s, 68 bytes starting at
`pos`. -/
def parseWeatherEntry (body : List Nat) (pos : Nat) :
    Option LoxoneWeatherEntry := do
  let timestamp ← readI32LE body pos
  let weather_type ← readI32LE body (pos + 4)
  let wind_direction ← readI32LE body (pos + 8)
  let solar_radiation ← readI32LE body (pos + 12)
  let relative_humidity ← readI32LE body (pos + 16)
  let temperature ← readBytes body (pos + 20) 8
  let perceived_temperature ← readBytes body (pos + 28) 8
  let dew_point ← readBytes body (pos + 36) 8
  let precipitation ← readBytes body (pos + 44) 8
  let wind_speed ← readBytes body (pos + 52) 8
  let barometic_pressure ← readBytes body (pos + 60) 8
  some ⟨timestamp, weather_type, wind_direction, solar_radiation,
    relative_humidity, temperature, perceived_temperature, dew_point,
    precipitation, wind_speed, barometic_pressure⟩

/-- The `for _ in 0..entries_len` loop of the weather decoder
(ws.rs:648–673): `n` consecutive 68-byte entries. -/
def parseWeatherEntries (body : List Nat) :
    Nat → Nat → Option (List LoxoneWeatherEntry × Nat)
  | pos, 0 => some ([], pos)
  | pos, n + 1 => do
    let e ← parseWeatherEntry body pos
    let (rest, p) ← parseWeatherEntries body (pos + 68) n
    some (e :: rest, p)

/-- One `WeatherEvent` record (ws.rs:643–674): UUID, `u32` last-update,
`i32` entry count, then the entries. -/
def parseWeatherRec (body : List Nat) (pos : Nat) : Option (WeatherEvent × Nat) := do
  let uuid ← parse_uuid_at body pos
  let last_update ← readU32LE body (pos + 16)
  let entries_len ← readI32LE body (pos + 20)
  if entries_len < 0 then none
  else do
    let (entries, p) ← parseWeatherEntries body (pos + 24) entries_len.toNat
    some (⟨uuid, last_update, entries⟩, p)

/-! ### Strict cursor advance of each record parser -/

def parseValueRec_pos {body : List Nat} {pos : Nat} {ev : ValueEvent}
    {p' : Nat} (h : parseValueRec body pos = some (ev, p')) : pos + 24 = p' := by
  unfold parseValueRec at h
  cases h1 : parse_uuid_at body pos <;> simp [h1] at h
  cases h2 : readBytes body (pos + 16) 8 <;> simp [h2] at h
  exact h.2

def parseTextRec_pos {body : List Nat} {pos : Nat} {ev : TextEvent}
    {p' : Nat} (h : parseTextRec body pos = some (ev, p')) : pos + 36 ≤ p' := by
  unfold parseTextRec at h
  cases h1 : parse_uuid_at body pos with
  | none => simp [h1] at h
  | some u =>
  cases h2 : parse_uuid_at body (pos + 16) with
  | none => simp [h1, h2] at h
  | some icon =>
  cases h3 : readU32LE body (pos + 32) with
  | none => simp [h1, h2, h3] at h
  | some L =>
  cases h4 : readBytes body (pos + 36) L with
  | none => simp [h1, h2, h3, h4] at h
  | some buf =>
  simp only [h1, h2, h3, h4, Option.bind_eq_bind, Option.some_bind] at h
  by_cases h5 : utf8Valid buf = true
  · rw [if_pos h5] at h
    simp only [Option.some.injEq, Prod.mk.injEq] at h
    obtain ⟨-, h⟩ := h
    omega
  · rw [if_neg h5] at h
    cases h

def parseDaytimerEntries_pos {body : List Nat} :
    ∀ {n pos : Nat} {es : List LoxoneDaytimerEntry} {p : Nat},
      parseDaytimerEntries body pos n = some (es, p) → p = pos + 24 * n := by
  intro n
  induction n with
  | zero =>
    intro pos es p h
    unfold parseDaytimerEntries at h
    simp at h
    omega
  | succ n ih =>
    intro pos es p h
    unfold parseDaytimerEntries at h
    cases h1 : parseDaytimerEntry body pos <;>
      simp only [h1, Option.bind_eq_bind, Option.none_bind, Option.some_bind,
        reduceCtorEq] at h
    cases h6 : parseDaytimerEntries body (pos + 24) n with
    | none =>
      simp only [h6, Option.bind_eq_bind, Option.none_bind, reduceCtorEq] at h
    | some r =>
      obtain ⟨rest, p'⟩ := r
      simp only [h6, Option.bind_eq_bind, Option.some_bind,
        Option.some.injEq, Prod.mk.injEq] at h
      have := ih h6
      omega


def parseWeatherEntries_pos {body : List Nat} :
    ∀ {n pos : Nat} {es : List LoxoneWeatherEntry} {p : Nat},
      parseWeatherEntries body pos n = some (es, p) → p = pos + 68 * n := by
  intro n
  induction n with
  | zero =>
    intro pos es p h
    unfold parseWeatherEntries at h
    simp at h
    omega
  | succ n ih =>
    intro pos es p h
    unfold parseWeatherEntries at h
    cases h1 : parseWeatherEntry body pos <;>
      simp only [h1, Option.bind_eq_bind, Option.none_bind, Option.some_bind,
        reduceCtorEq] at h
    cases h12 : parseWeatherEntries body (pos + 68) n with
    | none =>
      simp only [h12, Option.bind_eq_bind, Option.none_bind, reduceCtorEq] at h
    | some r =>
      obtain ⟨rest, p'⟩ := r
      simp only [h12, Option.bind_eq_bind, Option.some_bind,
        Option.some.injEq, Prod.mk.injEq] at h
      have := ih h12
      omega

def parseDaytimerRec_pos {body : List Nat} {pos : Nat} {ev : DaytimerEvent}
    {p' : Nat} (h : parseDaytimerRec body pos = some (ev, p')) : pos + 28 ≤ p' := by
  unfold parseDaytimerRec at h
  cases h1 : parse_uuid_at body pos with
  | none => simp [h1] at h
  | some u =>
  cases h2 : readBytes body (pos + 16) 8 with
  | none => simp [h1, h2] at h
  | some dflt =>
  cases h3 : readI32LE body (pos + 24) with
  | none => simp [h1, h2, h3] at h
  | some n =>
  simp only [h1, h2, h3, Option.bind_eq_bind, Option.some_bind] at h
  by_cases h4 : n < 0
  · rw [if_pos h4] at h
    cases h
  · rw [if_neg h4] at h
    cases h5 : parseDaytimerEntries body (pos + 28) n.toNat with
    | none => simp [h5] at h
    | some r =>
      obtain ⟨es, p⟩ := r
      simp only [h5, Option.bind_eq_bind, Option.some_bind,
        Option.some.injEq, Prod.mk.injEq] at h
      have := parseDaytimerEntries_pos h5
      omega

def parseWeatherRec_pos {body : List Nat} {pos : Nat} {ev : WeatherEvent}
    {p' : Nat} (h : parseWeatherRec body pos = some (ev, p')) : pos + 24 ≤ p' := by
  unfold parseWeatherRec at h
  cases h1 : parse_uuid_at body pos with
  | none => simp [h1] at h
  | some u =>
  cases h2 : readU32LE body (pos + 16) with
  | none => simp [h1, h2] at h
  | some lu =>
  cases h3 : readI32LE body (pos + 20) with
  | none => simp [h1, h2, h3] at h
  | some n =>
  simp only [h1, h2, h3, Option.bind_eq_bind, Option.some_bind] at h
  by_cases h4 : n < 0
  · rw [if_pos h4] at h
    cases h
  · rw [if_neg h4] at h
    cases h5 : parseWeatherEntries body (pos + 24) n.toNat with
    | none => simp [h5] at h
    | some r =>
      obtain ⟨es, p⟩ := r
      simp only [h5, Option.bind_eq_bind, Option.some_bind,
        Option.some.injEq, Prod.mk.injEq] at h
      have := parseWeatherEntries_pos h5
      omega

/-! ## The decode loop (`while pack.position() < msg_len`, ws.rs:576/591/616/643)

`parseLoop` is the common loop shape of the four event-table decoders:
while the cursor is strictly before `msg_len`, parse one record with `step`
and push it; each record parse strictly advances the cursor (the proof
`hstep` is what makes the loop terminate, exactly as in the source, where
every record occupies at least 24 bytes). -/

def parseLoop {α : Type} (step : List Nat → Nat → Option (α × Nat))
    (hstep : ∀ body pos ev p', step body pos = some (ev, p') → pos < p')
    (body : List Nat) (msgLen : Nat) (pos : Nat) (acc : List α) :
    Option (List α × Nat) :=
  if pos < msgLen then
    match hs : step body pos with
    | none => none
    | some (ev, p') => parseLoop step hstep body msgLen p' (acc ++ [ev])
  else some (acc, pos)
termination_by msgLen - pos
decreasing_by
  have := hstep body pos _ _ hs
  omega

def parseValueRec_mono :
    ∀ (body : List Nat) (pos : Nat) (ev : ValueEvent) (p' : Nat),
      parseValueRec body pos = some (ev, p') → pos < p' := by
  intro body pos ev p' h
  have := parseValueRec_pos h
  omega

def parseTextRec_mono :
    ∀ (body : List Nat) (pos : Nat) (ev : TextEvent) (p' : Nat),
      parseTextRec body pos = some (ev, p') → pos < p' := by
  intro body pos ev p' h
  have := parseTextRec_pos h
  omega

def parseDaytimerRec_mono :
    ∀ (body : List Nat) (pos : Nat) (ev : DaytimerEvent) (p' : Nat),
      parseDaytimerRec body pos = some (ev, p') → pos < p' := by
  intro body pos ev p' h
  have := parseDaytimerRec_pos h
  omega

def parseWeatherRec_mono :
    ∀ (body : List Nat) (pos : Nat) (ev : WeatherEvent) (p' : Nat),
      parseWeatherRec body pos = some (ev, p') → pos < p' := by
  intro body pos ev p' h
  have := parseWeatherRec_pos h
  omega

/-- The four event-table message types (codes 2, 3, 4 and 7). -/
inductive EvKind where
  | value
  | text
  | daytimer
  | weather
deriving DecidableEq

/-- The event-table arms of `parse_msg_body` (ws.rs:571–610, 611–635,
638–680): run the decode loop of the matching record kind over the body
from cursor position 0 and wrap the records in the corresponding
`EventTable` constructor.  The returned `Nat` is the final cursor
position. -/
def decodeBody : EvKind → List Nat → Nat → Option (EventTable × Nat)
  | .value, body, msgLen =>
    (parseLoop parseValueRec parseValueRec_mono body msgLen 0 []).map
      (fun r => (.ValueEvents r.1, r.2))
  | .text, body, msgLen =>
    (parseLoop parseTextRec parseTextRec_mono body msgLen 0 []).map
      (fun r => (.TextEvents r.1, r.2))
  | .daytimer, body, msgLen =>
    (parseLoop parseDaytimerRec parseDaytimerRec_mono body msgLen 0 []).map
      (fun r => (.DaytimerEvents r.1, r.2))
  | .weather, body, msgLen =>
    (parseLoop parseWeatherRec parseWeatherRec_mono body msgLen 0 []).map
      (fun r => (.WeatherEvents r.1, r.2))

/-! ## Wire-level encoders for event-table bodies

To state that the decoders consume exactly `msg_len` bytes on well-formed
bodies, we synthesize bodies from wire records: byte lists laid out exactly
as §3 of the protocol prescribes and as the decoders read them. -/

/-- Little-endian `u32` byte layout of `n` (for `n < 2^32`). -/
def u32LEbytes (n : Nat) : List Nat :=
  [n % 256, n / 256 % 256, n / 65536 % 256, n / 16777216 % 256]

/-- A wire `ValueEvent` record: UUID bytes then `f64` bytes. -/
structure WValueRec where
  uuid : List Nat
  val : List Nat

/-- Well-formedness: a 16-byte UUID and an 8-byte `f64`. -/
def WValueRec.wf (w : WValueRec) : Prop :=
  w.uuid.length = 16 ∧ w.val.length = 8

/-- Wire layout of a `ValueEvent` (24 bytes). -/
def encValueRec (w : WValueRec) : List Nat := w.uuid ++ w.val

/-- A wire `TextEvent` record: UUID, icon UUID and text bytes. -/
structure WTextRec where
  uuid : List Nat
  icon : List Nat
  text : List Nat

/-- Well-formedness: 16-byte UUIDs, a text length encodable as `u32`, and
UTF-8-valid text. -/
def WTextRec.wf (w : WTextRec) : Prop :=
  w.uuid.length = 16 ∧ w.icon.length = 16 ∧ w.text.length < 2 ^ 32 ∧
    utf8Valid w.text = true

/-- Wire layout of a `TextEvent`: UUID, icon UUID, `u32` text length, the
text and zero padding to the next multiple of 4. -/
def encTextRec (w : WTextRec) : List Nat :=
  w.uuid ++ w.icon ++ u32LEbytes w.text.length ++ w.text ++
    List.replicate (padOf w.text.length) 0

/-- A wire `DaytimerEvent` record: UUID, `f64` default and 20-byte entries. -/
structure WDaytimerRec where
  uuid : List Nat
  dflt : List Nat
  entries : List (List Nat)

/-- Well-formedness: a 16-byte UUID, an 8-byte default, a non-negative
`i32` entry count and 24-byte entries. -/
def WDaytimerRec.wf (w : WDaytimerRec) : Prop :=
  w.uuid.length = 16 ∧ w.dflt.length = 8 ∧ w.entries.length < 2 ^ 31 ∧
    ∀ e ∈ w.entries, e.length = 24

/-- Wire layout of a `DaytimerEvent`. -/
def encDaytimerRec (w : WDaytimerRec) : List Nat :=
  w.uuid ++ w.dflt ++ u32LEbytes w.entries.length ++ w.entries.flatten

/-- A wire `WeatherEvent` record: UUID, `u32` last-update and 68-byte
entries. -/
structure WWeatherRec where
  uuid : List Nat
  lastUpdate : List Nat
  entries : List (List Nat)

/-- Well-formedness: a 16-byte UUID, a 4-byte last-update, a non-negative
`i32` entry count and 68-byte entries. -/
def WWeatherRec.wf (w : WWeatherRec) : Prop :=
  w.uuid.length = 16 ∧ w.lastUpdate.length = 4 ∧ w.entries.length < 2 ^ 31 ∧
    ∀ e ∈ w.entries, e.length = 68

/-- Wire layout of a `WeatherEvent`. -/
def encWeatherRec (w : WWeatherRec) : List Nat :=
  w.uuid ++ w.lastUpdate ++ u32LEbytes w.entries.length ++ w.entries.flatten

/-- A synthesized event table: a list of wire records of a single kind. -/
inductive WireTable where
  | value (recs : List WValueRec)
  | text (recs : List WTextRec)
  | daytimer (recs : List WDaytimerRec)
  | weather (recs : List WWeatherRec)

/-- The message type a wire table is carried under. -/
def WireTable.kind : WireTable → EvKind
  | .value _ => .value
  | .text _ => .text
  | .daytimer _ => .daytimer
  | .weather _ => .weather

/-- All records of the table are well-formed. -/
def WireTable.wf : WireTable → Prop
  | .value recs => ∀ r ∈ recs, r.wf
  | .text recs => ∀ r ∈ recs, r.wf
  | .daytimer recs => ∀ r ∈ recs, r.wf
  | .weather recs => ∀ r ∈ recs, r.wf

/-- The body bytes of a synthesized event table: the concatenated wire
records, with no separators. -/
def encodeWire : WireTable → List Nat
  | .value recs => (recs.map encValueRec).flatten
  | .text recs => (recs.map encTextRec).flatten
  | .daytimer recs => (recs.map encDaytimerRec).flatten
  | .weather recs => (recs.map encWeatherRec).flatten

/-! ## Flattening event tables into UUID → state maps

`impl Into<HashMap<LoxoneUUID, LoxoneState>> for EventTable` (ws.rs:426–435)
maps each record to a `(UUID, state)` pair and `collect`s into a
`std::collections::HashMap`.  The map is modelled as an association list
with at most one binding per key; `hashMapInsert` models `HashMap::insert`
(replace the binding of an existing key, otherwise add one), which is what
`collect`/`extend` perform pair by pair.  Lookup and size agree with the
real map; the real map's iteration order is unspecified and is not
modelled. -/

/-- Modelled from the spec: `LoxoneState` is declared in `src/loxapp3.rs`,
which is not among the sources.  §3 of the spec gives its four variants —
`Value(f64)`, `Text(text, icon_uuid)`, `Daytimer(entries, default)`,
`Weather(entries, last_update)` — matching the constructor applications at
ws.rs:429–432. -/
inductive LoxoneState where
  | Value (value : List Nat)
  | Text (text : List Nat) (icon : String)
  | Daytimer (entries : List LoxoneDaytimerEntry) (default : List Nat)
  | Weather (entries : List LoxoneWeatherEntry) (last_update : Nat)
deriving DecidableEq

/-- The `(UUID, StateValue)` pairs of an event table in wire (record)
order — the `map` halves of ws.rs:429–432, before `collect`. -/
def eventTablePairs : EventTable → List (String × LoxoneState)
  | .ValueEvents evs => evs.map (fun e => (e.uuid, .Value e.value))
  | .TextEvents evs => evs.map (fun e => (e.uuid, .Text e.text e.icon))
  | .DaytimerEvents evs => evs.map (fun e => (e.uuid, .Daytimer e.entries e.default))
  | .WeatherEvents evs => evs.map (fun e => (e.uuid, .Weather e.entries e.last_update))

/-- Rust `HashMap::insert` on the association-list model: replace the binding of
an existing key, otherwise append a new one. -/
def hashMapInsert : List (String × LoxoneState) → String → LoxoneState →
    List (String × LoxoneState)
  | [], k, v => [(k, v)]
  | p :: m, k, v => if p.1 = k then (k, v) :: m else p :: hashMapInsert m k v

/-- Rust `collect::<HashMap<_, _>>()` / `Extend::extend`: insert the pairs left
to right into an accumulator map. -/
def hashMapOfPairs (pairs : List (String × LoxoneState)) :
    List (String × LoxoneState) :=
  pairs.foldl (fun m p => hashMapInsert m p.1 p.2) []

/-- Rust `EventTable::into::<HashMap<LoxoneUUID, LoxoneState>>()` (ws.rs:426–435). -/
def eventTableIntoMap (t : EventTable) : List (String × LoxoneState) :=
  hashMapOfPairs (eventTablePairs t)

/-- Rust `HashMap::get`. -/
def mapLookup : List (String × LoxoneState) → String → Option LoxoneState
  | [], _ => none
  | p :: m, u => if p.1 = u then some p.2 else mapLookup m u

/-- Number of bindings of key `u`. -/
def keyCount : List (String × LoxoneState) → String → Nat
  | [], _ => 0
  | p :: m, u => (if p.1 = u then 1 else 0) + keyCount m u

/-- The value of the last pair with key `u`, in list order (the record
that wins when duplicates collide in the hash map). -/
def assocLast : List (String × LoxoneState) → String → Option LoxoneState
  | [], _ => none
  | p :: ps, u =>
    match assocLast ps u with
    | some v => some v
    | none => if p.1 = u then some p.2 else none

/-- The initial-state snapshot of `enable_status_update` (ws.rs:319):
`rx.take(4).map(into).concat()` — fold the flattened tables into one map,
later tables extending (and overwriting) earlier ones. -/
def snapshotOfTables (ts : List EventTable) : List (String × LoxoneState) :=
  ts.foldl
    (fun m t => (eventTablePairs t).foldl (fun m p => hashMapInsert m p.1 p.2) m)
    []

/-! ## Message header parsing (ws.rs:408–424, 540–549) -/

/-- Rust `enum MessageType` (ws.rs:51–60). -/
inductive MessageType where
  | Text
  | BinaryFile
  | ValueEventTable
  | TextEventTable
  | DaytimerEventTable
  | OutOfServiceIndicator
  | KeepAlive
  | WeatherEventTable
deriving DecidableEq

/-- Rust `impl TryFrom<u8> for MessageType` (ws.rs:408–424): codes `0..=7`,
anything else an `InvalidData` error (which `parse_msg_header` unwraps into
a panic). -/
def MessageType.tryFrom : Nat → Option MessageType
  | 0 => some .Text
  | 1 => some .BinaryFile
  | 2 => some .ValueEventTable
  | 3 => some .TextEventTable
  | 4 => some .DaytimerEventTable
  | 5 => some .OutOfServiceIndicator
  | 6 => some .KeepAlive
  | 7 => some .WeatherEventTable
  | _ => none

/-- Rust `parse_msg_header` (ws.rs:540–549): reads the first four header bytes,
then — when the info byte is zero — a little-endian `u32` length from bytes
4..8 (info byte non-zero means the length arrives in a separate frame,
reported as `none`).  The opening statement
`assert_eq!(header[0], header.read_u8().unwrap())` compares the first byte
*with itself*: it can only fail by panicking on an empty slice, and never
checks the `0x03` magic, which is mirrored by the trivially true `b0 = b0`
test below. -/
def parse_msg_header (header : List Nat) : Option (MessageType × Option Nat) :=
  match header with
  | b0 :: b1 :: b2 :: _b3 :: rest =>
    if b0 = b0 then
      match MessageType.tryFrom b1 with
      | none => none
      | some msgType =>
        match b2 with
        | 0 =>
          match rest with
          | l0 :: l1 :: l2 :: l3 :: _ =>
            some (msgType, some (leVal [l0, l1, l2, l3]))
          | _ => none
        | _ => some (msgType, none)
    else none
  | _ => none

/-! ## JSON reply envelopes (ws.rs:195–212, 296–309)

A shallow model of `serde_json::Value` as far as the reply handlers look at
it.  `serde_json::Map` indexing panics on a missing key (`none` below);
`Value` indexing yields `Null` for a missing key or a non-object. -/

/-- A parsed JSON value; objects are association lists in document order. -/
inductive Json where
  | null
  | bool (b : Bool)
  | num (n : Int)
  | str (s : String)
  | arr (items : List Json)
  | obj (fields : List (String × Json))

/-- Rust `serde_json::Map` `Index<&str>`: panics (`none`) when the key is
absent. -/
def mapIndex (fields : List (String × Json)) (k : String) : Option Json :=
  match fields.find? (fun p => p.1 = k) with
  | some p => some p.2
  | none => none

/-- Rust `serde_json::Value` `Index<&str>`: `Null` when the value is not an
object or the key is absent. -/
def jsonIndex : Json → String → Json
  | .obj fields, k =>
    match mapIndex fields k with
    | some v => v
    | none => .null
  | _, _ => .null

/-- Rust `Value::as_str`. -/
def jsonAsStr : Json → Option String
  | .str s => some s
  | _ => none

/-- Rust `struct Session` (ws.rs:39–44): the AES-256 key and IV (the source
names the fields `rsa_key`/`rsa_iv`), the 2-byte salt and the RSA-wrapped
session key. -/
structure Session where
  rsa_key : List Nat
  rsa_iv : List Nat
  salt : List Nat
  session_key : List Nat
deriving DecidableEq

/-- Rust `enum KeyExchangeError` (ws.rs:101–117), decode-relevant variants. -/
inductive KeyExchangeError where
  | InvalidMessageType
  | JsonMissingField (field : String)
  | InvalidStatusCode (code : String)
  | KeyDecode
deriving DecidableEq

/-- Rust `enum RequestError` (ws.rs:119–131), decode-relevant variants. -/
inductive RequestError where
  | InvalidMessageType
  | JsonMissingField (field : String)
  | InvalidStatusCode (code : String)
deriving DecidableEq

/-- The value of a standard base64-alphabet character (`A–Z a–z 0–9 + /`). -/
def b64CharVal (c : Char) : Option Nat :=
  if 'A' ≤ c ∧ c ≤ 'Z' then some (c.toNat - 65)
  else if 'a' ≤ c ∧ c ≤ 'z' then some (c.toNat - 97 + 26)
  else if '0' ≤ c ∧ c ≤ '9' then some (c.toNat - 48 + 52)
  else if c = '+' then some 62
  else if c = '/' then some 63
  else none

/-- Quartet-by-quartet decoding of base64 characters (standard alphabet,
padding required, canonical trailing bits): each quartet yields a byte
triple, the final quartet optionally carrying one or two `=` pads. -/
def base64DecodeChars : List Char → Option (List Nat)
  | [] => some []
  | [c1, c2, '=', '='] => do
    let v1 ← b64CharVal c1
    let v2 ← b64CharVal c2
    if v2 % 16 = 0 then some [v1 * 4 + v2 / 16] else none
  | [c1, c2, c3, '='] => do
    let v1 ← b64CharVal c1
    let v2 ← b64CharVal c2
    let v3 ← b64CharVal c3
    if v3 % 4 = 0 then some [v1 * 4 + v2 / 16, v2 % 16 * 16 + v3 / 4]
    else none
  | c1 :: c2 :: c3 :: c4 :: rest => do
    let v1 ← b64CharVal c1
    let v2 ← b64CharVal c2
    let v3 ← b64CharVal c3
    let v4 ← b64CharVal c4
    let tail ← base64DecodeChars rest
    some ([v1 * 4 + v2 / 16, v2 % 16 * 16 + v3 / 4, v3 % 4 * 64 + v4] ++ tail)
  | _ => none

/-- Rust `base64::decode` (the standard configuration of the `base64` crate). -/
def base64Decode (s : String) : Option (List Nat) :=
  base64DecodeChars s.data

/-- Rust `WebSocket::key_exchange` reply handling (ws.rs:197–211), acting on the
client's session slot: on a `"200"` status the freshly built session is
adopted and the base64-decoded `LL.value` returned; on any other status
the slot is left unchanged and `InvalidStatusCode` carries the status
string verbatim.  `none` models the panic of indexing a reply without an
`"LL"` member. -/
def key_exchange_reply (session_old : Option Session) (sess : Session)
    (reply_json : List (String × Json)) :
    Option (Option Session × Except KeyExchangeError (List Nat)) := do
  let ll ← mapIndex reply_json "LL"
  match jsonAsStr (jsonIndex ll "Code") with
  | some code =>
    if code = "200" then
      match jsonAsStr (jsonIndex ll "value") with
      | some v =>
        match base64Decode v with
        | some remote_key => some (some sess, Except.ok remote_key)
        | none => some (session_old, Except.error .KeyDecode)
      | none => some (session_old, Except.error (.JsonMissingField "LL.value"))
    else some (session_old, Except.error (.InvalidStatusCode code))
  | none => some (session_old, Except.error (.JsonMissingField "LL.Code"))

/-- Rust `WebSocket::get_loxapp3_timestamp` reply handling (ws.rs:298–305).
The `assert_eq!` at ws.rs:300 fires *before* the status match, so any
non-`"200"` status panics (`none`) and the `InvalidStatusCode` arm below
it is dead code. -/
def get_loxapp3_timestamp_reply (reply_json : List (String × Json)) :
    Option (Except RequestError String) := do
  let ll ← mapIndex reply_json "LL"
  if jsonAsStr (jsonIndex ll "Code") = some "200" then
    match jsonAsStr (jsonIndex ll "Code") with
    | some code =>
      if code = "200" then
        match jsonAsStr (jsonIndex ll "value") with
        | some v => some (Except.ok v)
        | none => some (Except.error (.JsonMissingField "LL.value"))
      else some (Except.error (.InvalidStatusCode code))
    | none => some (Except.error (.JsonMissingField "LL.Code"))
  else none

/-! ## Password and token hashing (ws.rs:437–483)

SHA-1 and SHA-256 are external `rust-crypto` primitives, taken as function
parameters from digest input bytes to digest output bytes; everything the
source builds around them — the `pwd:salt` and `user:hash` concatenations,
lowercase-hex rendering (`result_str`), uppercasing, and the HMAC
construction of `Hmac::new` — is defined concretely.  Strings are modelled
as their UTF-8/ASCII bytes; `58` is `':'`. -/

/-- The ASCII bytes of a string. -/
def asciiOf (s : String) : List Nat := s.data.map Char.toNat

/-- Lowercase hex rendering of bytes, as ASCII codes
(`Digest::result_str`, `hex::encode`). -/
def hexAsciiLower (bytes : List Nat) : List Nat :=
  (bytes.map (fun b => (hexFixed 2 b).map Char.toNat)).flatten

/-- ASCII uppercasing of one byte (`str::to_uppercase` on `a`–`z`). -/
def asciiUpper (b : Nat) : Nat := if 97 ≤ b ∧ b ≤ 122 then b - 32 else b

/-- The ASCII code of the uppercase hex digit of `n % 16`. -/
def hexDigitUpper (n : Nat) : Nat :=
  if n % 16 < 10 then 48 + n % 16 else 55 + n % 16

/-- Uppercase hex rendering of bytes, as ASCII codes — the specification's
`HEX_UPPERCASE`. -/
def hexUpperAscii (bytes : List Nat) : List Nat :=
  (bytes.map (fun b => [hexDigitUpper (b / 16), hexDigitUpper b])).flatten

/-- HMAC over a digest `H` with the 64-byte block size of SHA-1/SHA-256
(`Hmac::new` of `rust-crypto`): a key longer than the block is hashed
first, then zero-padded to the block; then the standard ipad/opad nesting. -/
def hmac (H : List Nat → List Nat) (key msg : List Nat) : List Nat :=
  let k0 := if 64 < key.length then H key else key
  let k0p := k0 ++ List.replicate (64 - k0.length) 0
  H ((k0p.map (fun b => b ^^^ 92)) ++ H ((k0p.map (fun b => b ^^^ 54)) ++ msg))

/-- Rust `hash_pwd` (ws.rs:437–463), parameterized by the SHA-1 and SHA-256
digests: hash `pwd:salt`, render it as uppercased hex, and HMAC
`user:inner` under `key` with the matching digest.  `none` models the
`panic!` for any other algorithm string. -/
def hash_pwd (sha1 sha256 : List Nat → List Nat)
    (user pwd key salt : List Nat) (hash_alg : String) : Option (List Nat) :=
  match hash_alg with
  | "SHA1" =>
    let password_hash := (hexAsciiLower (sha1 (pwd ++ [58] ++ salt))).map asciiUpper
    some (hmac sha1 key (user ++ [58] ++ password_hash))
  | "SHA256" =>
    let password_hash := (hexAsciiLower (sha256 (pwd ++ [58] ++ salt))).map asciiUpper
    some (hmac sha256 key (user ++ [58] ++ password_hash))
  | _ => none

/-! ## Encrypted commands (ws.rs:485–510)

The AES-256 block permutation keyed by `session.rsa_key` is an external
`rust-crypto` primitive; it enters as a function parameter `E` (and its
inverse `D` on the specification side).  CBC chaining, PKCS7 padding and
the salted plaintext are the source's own structure and are defined
concretely. -/

/-- XOR of two byte blocks. -/
def xorBytes (a b : List Nat) : List Nat := List.zipWith (· ^^^ ·) a b

/-- Rust `blockmodes::PkcsPadding` for the 16-byte AES block: append
`p = 16 − len mod 16` bytes (1..16), each of value `p`. -/
def pkcs7pad (m : List Nat) : List Nat :=
  m ++ List.replicate (16 - m.length % 16) (16 - m.length % 16)

/-- Split a byte list into consecutive 16-byte blocks. -/
def chunks16 (l : List Nat) : List (List Nat) :=
  if l = [] then [] else l.take 16 :: chunks16 (l.drop 16)
termination_by l.length
decreasing_by
  have : l.length ≠ 0 := fun h0 => by
    rename_i hne
    exact hne (List.length_eq_zero.mp h0)
  simp only [List.length_drop]
  omega

/-- CBC encryption of a block sequence under block cipher `E` with
chaining value `prev` (`aes::cbc_encryptor`). -/
def cbcEncryptBlocks (E : List Nat → List Nat) (prev : List Nat) :
    List (List Nat) → List (List Nat)
  | [] => []
  | b :: bs =>
    let c := E (xorBytes prev b)
    c :: cbcEncryptBlocks E c bs

/-- CBC decryption under block decipher `D`. -/
def cbcDecryptBlocks (D : List Nat → List Nat) (prev : List Nat) :
    List (List Nat) → List (List Nat)
  | [] => []
  | c :: cs => xorBytes prev (D c) :: cbcDecryptBlocks D c cs

/-- The salted plaintext of `encrypt_cmd` (ws.rs:486):
`"salt/" ++ hex(session.salt) ++ "/" ++ cmd ++ "\0"` — the trailing NUL is
part of the plaintext (`47` is `'/'`). -/
def saltedCmd (salt cmd : List Nat) : List Nat :=
  asciiOf "salt/" ++ hexAsciiLower salt ++ [47] ++ cmd ++ [0]

/-- Rust `encrypt_cmd` (ws.rs:485–505): AES-256-CBC encrypt the PKCS7-padded
salted command under the session's key (folded into `E`) and IV; the
source's buffer loop concatenates all ciphertext blocks. -/
def encrypt_cmd (E : List Nat → List Nat) (session : Session)
    (cmd : List Nat) : List Nat :=
  (cbcEncryptBlocks E session.rsa_iv
    (chunks16 (pkcs7pad (saltedCmd session.salt cmd)))).flatten

/-- PKCS7 unpadding (the reference decryption side; the source only
encrypts): read the last byte `p`, check `1 ≤ p ≤ len` and that the last
`p` bytes all equal `p`, and drop them. -/
def pkcs7unpad (pt : List Nat) : Option (List Nat) :=
  match pt.getLast? with
  | none => none
  | some p =>
    if 1 ≤ p ∧ p ≤ pt.length ∧ (pt.drop (pt.length - p)).all (fun b => b = p) then
      some (pt.take (pt.length - p))
    else none

/-- AES-256-CBC decryption with PKCS7 unpadding — the claim's reference
operation. -/
def cbcDecryptPkcs7 (D : List Nat → List Nat) (iv ct : List Nat) :
    Option (List Nat) :=
  pkcs7unpad ((cbcDecryptBlocks D iv (chunks16 ct)).flatten)

/-! ## Encrypted command wrapping and sending (ws.rs:354–358, 507–510) -/

/-- The ASCII code of the standard base64-alphabet character for a sextet
`v < 64`. -/
def b64ValChar (v : Nat) : Nat :=
  if v < 26 then 65 + v
  else if v < 52 then 97 + (v - 26)
  else if v < 62 then 48 + (v - 52)
  else if v = 62 then 43
  else 47

/-- Rust `base64::encode_config(_, base64::STANDARD_NO_PAD)`: three bytes per
quartet of characters, a final group of one or two bytes yielding two or
three characters, no `=` padding. -/
def base64EncodeNoPad : List Nat → List Nat
  | [] => []
  | [b1] => [b64ValChar (b1 / 4 % 64), b64ValChar (b1 % 4 * 16)]
  | [b1, b2] =>
    [b64ValChar (b1 / 4 % 64), b64ValChar ((b1 % 4 * 16 + b2 / 16) % 64),
     b64ValChar (b2 % 16 * 4)]
  | b1 :: b2 :: b3 :: rest =>
    [b64ValChar (b1 / 4 % 64), b64ValChar ((b1 % 4 * 16 + b2 / 16) % 64),
     b64ValChar ((b2 % 16 * 4 + b3 / 64) % 64), b64ValChar (b3 % 64)] ++
      base64EncodeNoPad rest

/-- Rust `url::form_urlencoded::byte_serialize` on one byte: space becomes
`'+'`, ASCII alphanumerics and `* - . _` pass through, every other byte
becomes `%XX` with uppercase hex. -/
def percentEncodeByte (b : Nat) : List Nat :=
  if b = 32 then [43]
  else if (48 ≤ b ∧ b ≤ 57) ∨ (65 ≤ b ∧ b ≤ 90) ∨ (97 ≤ b ∧ b ≤ 122) ∨
      b = 42 ∨ b = 45 ∨ b = 46 ∨ b = 95 then [b]
  else [37, hexDigitUpper (b / 16), hexDigitUpper b]

/-- Rust `url::form_urlencoded::byte_serialize` over a byte string, collected. -/
def percentEncode (bs : List Nat) : List Nat :=
  (bs.map percentEncodeByte).flatten

/-- The errors `send_recv_enc` can raise before anything reaches the wire
(ws.rs:354–358): `PermissionDenied` without an active session,
`InvalidInput` if encryption failed (the CBC model cannot fail). -/
inductive WsError where
  | PermissionDenied
  | InvalidInput
deriving DecidableEq

/-- Rust `encrypt_cmd_ws` (ws.rs:507–510):
`"jdev/sys/" ++ endpoint ++ "/" ++ percent_encode(base64_no_pad(ciphertext))`. -/
def encrypt_cmd_ws (E : List Nat → List Nat) (endpoint : String)
    (cmd : List Nat) (session : Session) : List Nat :=
  asciiOf ("jdev/sys/" ++ endpoint ++ "/") ++
    percentEncode (base64EncodeNoPad (encrypt_cmd E session cmd))

/-- Rust `send_recv_enc` (ws.rs:354–358): with no active session fail with a
permission error before any frame is written; with a session, wrap the
command via `encrypt_cmd_ws("enc", …)` and hand exactly that frame to
`send_recv`.  The result pairs the frames written to the sink with the
error, if any. -/
def send_recv_enc (E : List Nat → List Nat) (session : Option Session)
    (cmd : List Nat) : List (List Nat) × Option WsError :=
  match session with
  | none => ([], some .PermissionDenied)
  | some s => ([encrypt_cmd_ws E "enc" cmd s], none)

theorem hexFixed_length (w n : Nat) : (hexFixed w n).length = w := by
  induction w generalizing n with
  | zero => rfl
  | succ w ih => simp [hexFixed, ih]

theorem hexBytes_length (l : List Nat) : (hexBytes l).length = 2 * l.length := by
  show ((l.map (hexFixed 2)).flatten).length = 2 * l.length
  induction l with
  | nil => rfl
  | cons x xs ih =>
    simp only [List.map_cons, List.flatten_cons, List.length_append,
      hexFixed_length, List.length_cons] at *
    omega

theorem hexDigit_isUuidChar (n : Nat) : isUuidChar (hexDigit n) = true := by
  have h : n % 16 < 16 := Nat.mod_lt _ (by norm_num)
  unfold hexDigit
  set m := n % 16 with hm
  interval_cases m <;> decide

theorem hexFixed_isUuidChar {w n : Nat} {c : Char} (h : c ∈ hexFixed w n) :
    isUuidChar c = true := by
  induction w generalizing n with
  | zero => simp [hexFixed] at h
  | succ w ih =>
    simp only [hexFixed, List.mem_append, List.mem_singleton] at h
    rcases h with h | h
    · exact ih h
    · subst h; exact hexDigit_isUuidChar n

theorem readBytes_length {body : List Nat} {pos n : Nat} {bs : List Nat}
    (h : readBytes body pos n = some bs) : bs.length = n := by
  unfold readBytes at h
  by_cases hle : pos + n ≤ body.length
  · rw [if_pos hle] at h
    simp only [Option.some.injEq] at h
    subst h
    simp only [List.length_take, List.length_drop]
    omega
  · rw [if_neg hle] at h
    cases h

theorem hexBytes_isUuidChar {l : List Nat} {c : Char} (h : c ∈ (hexBytes l).data) :
    isUuidChar c = true := by
  unfold hexBytes at h
  simp only [List.mem_flatten, List.mem_map] at h
  obtain ⟨seg, ⟨b, _, hseg⟩, hc⟩ := h
  subst hseg
  exact hexFixed_isUuidChar hc

/-- Claim C3: (amended: 35 characters, not the claimed 36).  Every successful
`parse_uuid` — a little-endian `u32`, two little-endian `u16`s and 8 raw
bytes, rendered in lowercase hex joined by dashes — produces a string of
exactly 35 characters, each a dash, a decimal digit or a lowercase hex
letter. -/
theorem C3_parse_uuid_renders_canonical {body : List Nat} {pos : Nat} {s : String}
    (h : parse_uuid_at body pos = some s) :
    s.length = 35 ∧ s.data.all isUuidChar = true := by
  unfold parse_uuid_at at h
  cases h1 : readU32LE body pos with
  | none => simp [h1] at h
  | some d1 =>
  cases h2 : readU16LE body (pos + 4) with
  | none => simp [h1, h2] at h
  | some d2 =>
  cases h3 : readU16LE body (pos + 6) with
  | none => simp [h1, h2, h3] at h
  | some d3 =>
  cases h4 : readBytes body (pos + 8) 8 with
  | none => simp [h1, h2, h3, h4] at h
  | some d4 =>
  simp only [h1, h2, h3, h4, Option.bind_eq_bind, Option.some_bind,
    Option.some.injEq] at h
  have hlen4 : d4.length = 8 := readBytes_length h4
  subst h
  constructor
  · simp only [String.length_append]
    have hjoin := hexBytes_length d4
    have l8 : (hex8 d1).length = 8 := by
      show (hexFixed 8 d1).length = 8
      exact hexFixed_length 8 d1
    have l4a : (hex4 d2).length = 4 := hexFixed_length 4 d2
    have l4b : (hex4 d3).length = 4 := hexFixed_length 4 d3
    have ldash : ("-" : String).length = 1 := rfl
    omega
  · simp only [List.all_eq_true]
    intro c hc
    simp only [String.data_append, List.mem_append] at hc
    rcases hc with (((((hc | hc) | hc) | hc) | hc) | hc) | hc
    · exact hexFixed_isUuidChar hc
    · simp only [show ("-" : String).data = ['-'] from rfl,
        List.mem_singleton] at hc
      subst hc; decide
    · exact hexFixed_isUuidChar hc
    · simp only [show ("-" : String).data = ['-'] from rfl,
        List.mem_singleton] at hc
      subst hc; decide
    · exact hexFixed_isUuidChar hc
    · simp only [show ("-" : String).data = ['-'] from rfl,
        List.mem_singleton] at hc
      subst hc; decide
    · exact hexBytes_isUuidChar hc

/-- Witness for C3: `parse_uuid` applied to 16 zero bytes. -/
theorem C3_witness :
    ("00000000-0000-0000-0000000000000000" : String).length = 35 ∧
      ("00000000-0000-0000-0000000000000000" : String).data.all isUuidChar = true :=
  @C3_parse_uuid_renders_canonical (List.replicate 16 0) 0
    "00000000-0000-0000-0000000000000000" (by decide)

/-- Counterexample for C3 as stated: the rendered form of the 16 zero bytes
has 35 characters, not 36 — `format!` emits 8+4+4+16 hex digits and only
three dashes. -/
theorem C3_counterexample :
    parse_uuid_at (List.replicate 16 0) 0 =
      some "00000000-0000-0000-0000000000000000" ∧
    ("00000000-0000-0000-0000000000000000" : String).length ≠ 36 := by
  constructor
  · decide
  · decide

/-- The decode loop never stops before `msg_len`: whatever final cursor
position a successful decode reaches is at least `msg_len` (the loop
re-enters whenever the cursor is strictly below it).  Stated with an
explicit fuel bound `k` for the induction. -/
theorem parseLoop_final {α : Type} (step : List Nat → Nat → Option (α × Nat))
    (hstep : ∀ body pos ev p', step body pos = some (ev, p') → pos < p') :
    ∀ (k : Nat) (body : List Nat) (msgLen pos : Nat) (acc evs : List α) (p : Nat),
      msgLen - pos ≤ k →
      parseLoop step hstep body msgLen pos acc = some (evs, p) → msgLen ≤ p := by
  intro k
  induction k with
  | zero =>
    intro body msgLen pos acc evs p hk h
    unfold parseLoop at h
    rw [if_neg (by omega)] at h
    simp only [Option.some.injEq, Prod.mk.injEq] at h
    omega
  | succ k ih =>
    intro body msgLen pos acc evs p hk h
    unfold parseLoop at h
    by_cases hlt : pos < msgLen
    · rw [if_pos hlt] at h
      cases hs : step body pos with
      | none => rw [hs] at h; cases h
      | some r =>
        obtain ⟨ev, p'⟩ := r
        rw [hs] at h
        have hmono := hstep body pos ev p' hs
        exact ih body msgLen p' (acc ++ [ev]) evs p (by omega) h
    · rw [if_neg hlt] at h
      simp only [Option.some.injEq, Prod.mk.injEq] at h
      omega

theorem parseLoop_final_map {α : Type} {step : List Nat → Nat → Option (α × Nat)}
    {hstep : ∀ body pos ev p', step body pos = some (ev, p') → pos < p'}
    {body : List Nat} {msgLen : Nat} {t : EventTable} {p : Nat}
    {f : List α → EventTable}
    (h : (parseLoop step hstep body msgLen 0 []).map (fun r => (f r.1, r.2)) =
      some (t, p)) : msgLen ≤ p := by
  cases hl : parseLoop step hstep body msgLen 0 [] with
  | none => rw [hl] at h; cases h
  | some r =>
    obtain ⟨evs, p'⟩ := r
    rw [hl] at h
    simp only [Option.map_some', Option.some.injEq, Prod.mk.injEq] at h
    obtain ⟨-, hp⟩ := h
    subst hp
    exact parseLoop_final step hstep msgLen body msgLen 0 [] evs _ (by omega) hl

/-- Specialization of `parseLoop_final` to the four decoders: a successful
event-table decode ends at or past `msg_len`, never short of it. -/
theorem decodeBody_final {k : EvKind} {body : List Nat} {msgLen : Nat}
    {t : EventTable} {p : Nat} (h : decodeBody k body msgLen = some (t, p)) :
    msgLen ≤ p := by
  cases k <;>
    · simp only [decodeBody] at h
      exact parseLoop_final_map h

theorem leVal_u32LEbytes {n : Nat} (h : n < 2 ^ 32) : leVal (u32LEbytes n) = n := by
  show n % 256 + 256 * (n / 256 % 256 + 256 * (n / 65536 % 256 +
    256 * (n / 16777216 % 256 + 256 * 0))) = n
  omega

theorem padOf_eq (L : Nat) : padOf L = (4 - L % 4) % 4 := by
  unfold padOf
  have h4 : L % 4 < 4 := Nat.mod_lt _ (by norm_num)
  rcases h : L % 4 with _ | r
  · rfl
  · show 4 - (r + 1) = (4 - (r + 1)) % 4
    omega

theorem drop_shift {body : List Nat} {pos : Nat} {a b : List Nat}
    (hdrop : body.drop pos = a ++ b) {k : Nat} (hk : a.length = k) :
    body.drop (pos + k) = b := by
  rw [← List.drop_drop, hdrop, ← hk, List.drop_left]

theorem readBytes_front {body : List Nat} {pos : Nat} {a b : List Nat}
    (hdrop : body.drop pos = a ++ b) (hpos : pos ≤ body.length)
    {n : Nat} (hn : a.length = n) :
    readBytes body pos n = some a := by
  have hlen : (body.drop pos).length = body.length - pos := by simp
  rw [hdrop] at hlen
  simp only [List.length_append] at hlen
  unfold readBytes
  rw [if_pos (by omega), hdrop, ← hn, List.take_left]

theorem parse_uuid_at_of_le {body : List Nat} {pos : Nat}
    (h : pos + 16 ≤ body.length) : ∃ s, parse_uuid_at body pos = some s := by
  unfold parse_uuid_at readU32LE readU16LE readBytes
  rw [if_pos (by omega : pos + 4 ≤ body.length),
    if_pos (by omega : pos + 4 + 2 ≤ body.length),
    if_pos (by omega : pos + 6 + 2 ≤ body.length),
    if_pos (by omega : pos + 8 + 8 ≤ body.length)]
  exact ⟨_, rfl⟩

theorem flatten_length_const {c : Nat} :
    ∀ (ls : List (List Nat)), (∀ e ∈ ls, e.length = c) →
      ls.flatten.length = c * ls.length := by
  intro ls h
  induction ls with
  | nil => rfl
  | cons x xs ih =>
    have hx : x.length = c := h x (List.mem_cons_self x xs)
    have ih' := ih (fun e he => h e (List.mem_cons_of_mem x he))
    simp only [List.flatten_cons, List.length_append, List.length_cons, hx, ih']
    ring

theorem i32OfU32_nonneg {n : Nat} (h : n < 2 ^ 31) :
    i32OfU32 n = (n : Int) ∧ ¬ (i32OfU32 n < 0) ∧ (i32OfU32 n).toNat = n := by
  unfold i32OfU32
  rw [if_pos h]
  refine ⟨rfl, by omega, by omega⟩

theorem parseValueRec_encode {body : List Nat} {pos : Nat} {w : WValueRec}
    {rest : List Nat} (hw : w.wf) (hdrop : body.drop pos = encValueRec w ++ rest)
    (hpos : pos ≤ body.length) :
    ∃ ev, parseValueRec body pos = some (ev, pos + (encValueRec w).length) := by
  obtain ⟨hu, hv⟩ := hw
  have henc : (encValueRec w).length = 24 := by
    simp only [encValueRec, List.length_append, hu, hv]
  rw [encValueRec, List.append_assoc] at hdrop
  have hlen : (body.drop pos).length = body.length - pos := by simp
  rw [hdrop] at hlen
  simp only [List.length_append, hu, hv] at hlen
  obtain ⟨s, hs⟩ := parse_uuid_at_of_le (show pos + 16 ≤ body.length by omega)
  have hval : readBytes body (pos + 16) 8 = some w.val :=
    readBytes_front (drop_shift hdrop hu) (by omega) hv
  refine ⟨⟨s, w.val⟩, ?_⟩
  unfold parseValueRec
  rw [hs, hval, henc]
  rfl

theorem parseTextRec_encode {body : List Nat} {pos : Nat} {w : WTextRec}
    {rest : List Nat} (hw : w.wf) (hdrop : body.drop pos = encTextRec w ++ rest)
    (hpos : pos ≤ body.length) :
    ∃ ev, parseTextRec body pos = some (ev, pos + (encTextRec w).length) := by
  obtain ⟨hu, hi, hlt, hutf⟩ := hw
  have hu32 : (u32LEbytes w.text.length).length = 4 := rfl
  have henc : (encTextRec w).length =
      36 + w.text.length + padOf w.text.length := by
    simp only [encTextRec, List.length_append, List.length_replicate, hu, hi, hu32]
    try omega
  rw [encTextRec, List.append_assoc, List.append_assoc, List.append_assoc,
    List.append_assoc] at hdrop
  have hlen : (body.drop pos).length = body.length - pos := by simp
  rw [hdrop] at hlen
  simp only [List.length_append, List.length_replicate, hu, hi, hu32] at hlen
  obtain ⟨s1, hs1⟩ := parse_uuid_at_of_le (show pos + 16 ≤ body.length by omega)
  have hd1 : body.drop (pos + 16) =
      w.icon ++ (u32LEbytes w.text.length ++ (w.text ++
        (List.replicate (padOf w.text.length) 0 ++ rest))) :=
    drop_shift hdrop hu
  obtain ⟨s2, hs2⟩ := parse_uuid_at_of_le
    (show pos + 16 + 16 ≤ body.length by omega)
  have hd2 : body.drop (pos + 32) =
      u32LEbytes w.text.length ++ (w.text ++
        (List.replicate (padOf w.text.length) 0 ++ rest)) := by
    rw [show pos + 32 = pos + 16 + 16 by omega]
    exact drop_shift hd1 hi
  have htl : readU32LE body (pos + 32) = some w.text.length := by
    unfold readU32LE
    rw [readBytes_front hd2 (by omega) hu32]
    simp only [Option.map_some', leVal_u32LEbytes hlt]
  have hd3 : body.drop (pos + 36) =
      w.text ++ (List.replicate (padOf w.text.length) 0 ++ rest) := by
    rw [show pos + 36 = pos + 32 + 4 by omega]
    exact drop_shift hd2 hu32
  have htext : readBytes body (pos + 36) w.text.length = some w.text :=
    readBytes_front hd3 (by omega) rfl
  refine ⟨⟨s1, s2, w.text⟩, ?_⟩
  unfold parseTextRec
  rw [hs1, hs2, htl]
  simp only [Option.bind_eq_bind, Option.some_bind]
  rw [htext]
  simp only [Option.some_bind]
  rw [if_pos hutf, henc]
  have harith : pos + 36 + w.text.length + padOf w.text.length =
      pos + (36 + w.text.length + padOf w.text.length) := by omega
  rw [harith]

theorem parseDaytimerEntry_encode {body : List Nat} {pos : Nat}
    {e b : List Nat} (hdrop : body.drop pos = e ++ b) (hpos : pos ≤ body.length)
    (he : e.length = 24) :
    ∃ ent, parseDaytimerEntry body pos = some ent := by
  have hlen : (body.drop pos).length = body.length - pos := by simp
  rw [hdrop] at hlen
  simp only [List.length_append, he] at hlen
  unfold parseDaytimerEntry readI32LE readU32LE readBytes
  rw [if_pos (show pos + 4 ≤ body.length by omega),
    if_pos (show pos + 4 + 4 ≤ body.length by omega),
    if_pos (show pos + 8 + 4 ≤ body.length by omega),
    if_pos (show pos + 12 + 4 ≤ body.length by omega),
    if_pos (show pos + 16 + 8 ≤ body.length by omega)]
  exact ⟨_, rfl⟩

theorem parseDaytimerEntries_encode {body : List Nat} :
    ∀ (es : List (List Nat)) (pos : Nat) (b : List Nat),
      (∀ e ∈ es, e.length = 24) → body.drop pos = es.flatten ++ b →
      pos ≤ body.length →
      ∃ ents, parseDaytimerEntries body pos es.length =
        some (ents, pos + 24 * es.length) := by
  intro es
  induction es with
  | nil =>
    intro pos b _ _ _
    exact ⟨[], by unfold parseDaytimerEntries; simp⟩
  | cons e es ih =>
    intro pos b hwf hdrop hpos
    have he : e.length = 24 := hwf e (List.mem_cons_self e es)
    rw [List.flatten_cons, List.append_assoc] at hdrop
    have hlen : (body.drop pos).length = body.length - pos := by simp
    rw [hdrop] at hlen
    simp only [List.length_append, he] at hlen
    obtain ⟨ent, hent⟩ := parseDaytimerEntry_encode hdrop hpos he
    have hd2 := drop_shift hdrop he
    obtain ⟨ents, hents⟩ := ih (pos + 24) b
      (fun x hx => hwf x (List.mem_cons_of_mem e hx)) hd2 (by omega)
    refine ⟨ent :: ents, ?_⟩
    show parseDaytimerEntries body pos (es.length + 1) = _
    unfold parseDaytimerEntries
    rw [hent]
    simp only [Option.bind_eq_bind, Option.some_bind]
    rw [hents]
    simp only [Option.some_bind, List.length_cons]
    have harith : pos + 24 + 24 * es.length = pos + 24 * (es.length + 1) := by
      omega
    rw [harith]

theorem parseDaytimerRec_encode {body : List Nat} {pos : Nat} {w : WDaytimerRec}
    {rest : List Nat} (hw : w.wf)
    (hdrop : body.drop pos = encDaytimerRec w ++ rest)
    (hpos : pos ≤ body.length) :
    ∃ ev, parseDaytimerRec body pos = some (ev, pos + (encDaytimerRec w).length) := by
  obtain ⟨hu, hd, hn, hes⟩ := hw
  have hu32 : (u32LEbytes w.entries.length).length = 4 := rfl
  have hfl : w.entries.flatten.length = 24 * w.entries.length :=
    flatten_length_const w.entries hes
  have henc : (encDaytimerRec w).length = 28 + 24 * w.entries.length := by
    simp only [encDaytimerRec, List.length_append, hu, hd, hu32, hfl]
    try omega
  rw [encDaytimerRec, List.append_assoc, List.append_assoc,
    List.append_assoc] at hdrop
  have hlen : (body.drop pos).length = body.length - pos := by simp
  rw [hdrop] at hlen
  simp only [List.length_append, hu, hd, hu32, hfl] at hlen
  obtain ⟨s, hs⟩ := parse_uuid_at_of_le (show pos + 16 ≤ body.length by omega)
  have hd1 : body.drop (pos + 16) =
      w.dflt ++ (u32LEbytes w.entries.length ++ (w.entries.flatten ++ rest)) :=
    drop_shift hdrop hu
  have hdflt : readBytes body (pos + 16) 8 = some w.dflt :=
    readBytes_front hd1 (by omega) hd
  have hd2 : body.drop (pos + 24) =
      u32LEbytes w.entries.length ++ (w.entries.flatten ++ rest) := by
    rw [show pos + 24 = pos + 16 + 8 by omega]
    exact drop_shift hd1 hd
  have hcount : readI32LE body (pos + 24) = some (w.entries.length : Int) := by
    unfold readI32LE readU32LE
    rw [readBytes_front hd2 (by omega) hu32]
    simp only [Option.map_some', leVal_u32LEbytes (show w.entries.length < 2 ^ 32 by omega),
      (i32OfU32_nonneg hn).1]
  have hd3 : body.drop (pos + 28) = w.entries.flatten ++ rest := by
    rw [show pos + 28 = pos + 24 + 4 by omega]
    exact drop_shift hd2 hu32
  obtain ⟨ents, hents⟩ := parseDaytimerEntries_encode w.entries (pos + 28) rest
    hes hd3 (by omega)
  refine ⟨⟨s, w.dflt, ents⟩, ?_⟩
  unfold parseDaytimerRec
  rw [hs, hdflt, hcount]
  simp only [Option.bind_eq_bind, Option.some_bind]
  rw [if_neg (show ¬ ((w.entries.length : Int) < 0) by omega)]
  rw [show ((w.entries.length : Int)).toNat = w.entries.length from by omega]
  rw [hents]
  simp only [Option.some_bind]
  rw [henc]
  have harith : pos + 28 + 24 * w.entries.length =
      pos + (28 + 24 * w.entries.length) := by omega
  rw [harith]

theorem parseWeatherEntry_encode {body : List Nat} {pos : Nat}
    {e b : List Nat} (hdrop : body.drop pos = e ++ b) (hpos : pos ≤ body.length)
    (he : e.length = 68) :
    ∃ ent, parseWeatherEntry body pos = some ent := by
  have hlen : (body.drop pos).length = body.length - pos := by simp
  rw [hdrop] at hlen
  simp only [List.length_append, he] at hlen
  unfold parseWeatherEntry readI32LE readU32LE readBytes
  rw [if_pos (show pos + 4 ≤ body.length by omega),
    if_pos (show pos + 4 + 4 ≤ body.length by omega),
    if_pos (show pos + 8 + 4 ≤ body.length by omega),
    if_pos (show pos + 12 + 4 ≤ body.length by omega),
    if_pos (show pos + 16 + 4 ≤ body.length by omega),
    if_pos (show pos + 20 + 8 ≤ body.length by omega),
    if_pos (show pos + 28 + 8 ≤ body.length by omega),
    if_pos (show pos + 36 + 8 ≤ body.length by omega),
    if_pos (show pos + 44 + 8 ≤ body.length by omega),
    if_pos (show pos + 52 + 8 ≤ body.length by omega),
    if_pos (show pos + 60 + 8 ≤ body.length by omega)]
  exact ⟨_, rfl⟩

theorem parseWeatherEntries_encode {body : List Nat} :
    ∀ (es : List (List Nat)) (pos : Nat) (b : List Nat),
      (∀ e ∈ es, e.length = 68) → body.drop pos = es.flatten ++ b →
      pos ≤ body.length →
      ∃ ents, parseWeatherEntries body pos es.length =
        some (ents, pos + 68 * es.length) := by
  intro es
  induction es with
  | nil =>
    intro pos b _ _ _
    exact ⟨[], by unfold parseWeatherEntries; simp⟩
  | cons e es ih =>
    intro pos b hwf hdrop hpos
    have he : e.length = 68 := hwf e (List.mem_cons_self e es)
    rw [List.flatten_cons, List.append_assoc] at hdrop
    have hlen : (body.drop pos).length = body.length - pos := by simp
    rw [hdrop] at hlen
    simp only [List.length_append, he] at hlen
    obtain ⟨ent, hent⟩ := parseWeatherEntry_encode hdrop hpos he
    have hd2 := drop_shift hdrop he
    obtain ⟨ents, hents⟩ := ih (pos + 68) b
      (fun x hx => hwf x (List.mem_cons_of_mem e hx)) hd2 (by omega)
    refine ⟨ent :: ents, ?_⟩
    show parseWeatherEntries body pos (es.length + 1) = _
    unfold parseWeatherEntries
    rw [hent]
    simp only [Option.bind_eq_bind, Option.some_bind]
    rw [hents]
    simp only [Option.some_bind, List.length_cons]
    have harith : pos + 68 + 68 * es.length = pos + 68 * (es.length + 1) := by
      omega
    rw [harith]

theorem parseWeatherRec_encode {body : List Nat} {pos : Nat} {w : WWeatherRec}
    {rest : List Nat} (hw : w.wf)
    (hdrop : body.drop pos = encWeatherRec w ++ rest)
    (hpos : pos ≤ body.length) :
    ∃ ev, parseWeatherRec body pos = some (ev, pos + (encWeatherRec w).length) := by
  obtain ⟨hu, hl4, hn, hes⟩ := hw
  have hu32 : (u32LEbytes w.entries.length).length = 4 := rfl
  have hfl : w.entries.flatten.length = 68 * w.entries.length :=
    flatten_length_const w.entries hes
  have henc : (encWeatherRec w).length = 24 + 68 * w.entries.length := by
    simp only [encWeatherRec, List.length_append, hu, hl4, hu32, hfl]
    try omega
  rw [encWeatherRec, List.append_assoc, List.append_assoc,
    List.append_assoc] at hdrop
  have hlen : (body.drop pos).length = body.length - pos := by simp
  rw [hdrop] at hlen
  simp only [List.length_append, hu, hl4, hu32, hfl] at hlen
  obtain ⟨s, hs⟩ := parse_uuid_at_of_le (show pos + 16 ≤ body.length by omega)
  have hd1 : body.drop (pos + 16) =
      w.lastUpdate ++ (u32LEbytes w.entries.length ++ (w.entries.flatten ++ rest)) :=
    drop_shift hdrop hu
  have hlu : readU32LE body (pos + 16) = some (leVal w.lastUpdate) := by
    unfold readU32LE
    rw [readBytes_front hd1 (by omega) hl4]
    simp only [Option.map_some']
  have hd2 : body.drop (pos + 20) =
      u32LEbytes w.entries.length ++ (w.entries.flatten ++ rest) := by
    rw [show pos + 20 = pos + 16 + 4 by omega]
    exact drop_shift hd1 hl4
  have hcount : readI32LE body (pos + 20) = some (w.entries.length : Int) := by
    unfold readI32LE readU32LE
    rw [readBytes_front hd2 (by omega) hu32]
    simp only [Option.map_some', leVal_u32LEbytes (show w.entries.length < 2 ^ 32 by omega),
      (i32OfU32_nonneg hn).1]
  have hd3 : body.drop (pos + 24) = w.entries.flatten ++ rest := by
    rw [show pos + 24 = pos + 20 + 4 by omega]
    exact drop_shift hd2 hu32
  obtain ⟨ents, hents⟩ := parseWeatherEntries_encode w.entries (pos + 24) rest
    hes hd3 (by omega)
  refine ⟨⟨s, leVal w.lastUpdate, ents⟩, ?_⟩
  unfold parseWeatherRec
  rw [hs, hlu, hcount]
  simp only [Option.bind_eq_bind, Option.some_bind]
  rw [if_neg (show ¬ ((w.entries.length : Int) < 0) by omega)]
  rw [show ((w.entries.length : Int)).toNat = w.entries.length from by omega]
  rw [hents]
  simp only [Option.some_bind]
  rw [henc]
  have harith : pos + 24 + 68 * w.entries.length =
      pos + (24 + 68 * w.entries.length) := by omega
  rw [harith]

/-- Decoding a synthesized body: if the bytes from `pos` on are exactly the
concatenated encodings of well-formed wire records, the loop parses one
record per encoding and stops exactly at the end of the body. -/
theorem parseLoop_encode {α W : Type} (step : List Nat → Nat → Option (α × Nat))
    (hstep : ∀ body pos ev p', step body pos = some (ev, p') → pos < p')
    (enc : W → List Nat) (wf : W → Prop)
    (hdec : ∀ (body : List Nat) (pos : Nat) (w : W) (rest : List Nat), wf w →
      body.drop pos = enc w ++ rest → pos ≤ body.length →
      ∃ ev, step body pos = some (ev, pos + (enc w).length))
    (henc0 : ∀ w, wf w → 0 < (enc w).length) :
    ∀ (ws : List W) (body : List Nat) (pos : Nat) (acc : List α),
      (∀ w ∈ ws, wf w) → body.drop pos = (ws.map enc).flatten →
      pos ≤ body.length →
      ∃ evs, parseLoop step hstep body body.length pos acc =
        some (evs, body.length) := by
  intro ws
  induction ws with
  | nil =>
    intro body pos acc _ hdrop hpos
    have h0 : (body.drop pos).length = 0 := by rw [hdrop]; rfl
    simp only [List.length_drop] at h0
    have hp : pos = body.length := by omega
    refine ⟨acc, ?_⟩
    unfold parseLoop
    rw [if_neg (by omega), hp]
  | cons w ws ih =>
    intro body pos acc hwf hdrop hpos
    simp only [List.map_cons, List.flatten_cons] at hdrop
    have hwfw : wf w := hwf w (List.mem_cons_self w ws)
    have hlen : (body.drop pos).length = body.length - pos := by simp
    rw [hdrop] at hlen
    simp only [List.length_append] at hlen
    have h0 := henc0 w hwfw
    obtain ⟨ev, hst⟩ := hdec body pos w _ hwfw hdrop hpos
    have hd2 : body.drop (pos + (enc w).length) = (ws.map enc).flatten :=
      drop_shift hdrop rfl
    obtain ⟨evs, hrec⟩ := ih body (pos + (enc w).length) (acc ++ [ev])
      (fun x hx => hwf x (List.mem_cons_of_mem w hx)) hd2 (by omega)
    refine ⟨evs, ?_⟩
    unfold parseLoop
    rw [if_pos (by omega : pos < body.length), hst]
    exact hrec

/-- Claim C2: (amended).  (a) For every synthesized event-table body — the
concatenation of well-formed wire records — the decoder consumes exactly
`msg_len` bytes: it succeeds and its final cursor position equals
`msg_len`.  (b) For every successful decode of any body, the final cursor
position is at least `msg_len`: the cursor never stops short of it.
(c)–(f) Each of the four record parsers strictly advances the cursor, so
the cursor position is strictly monotone over the loop.  (The original
claim's stronger clause — that the decoder never produces a record read
from past `msg_len` and always ends exactly at `msg_len` — is false; see
the counterexample.) -/
theorem C2_decoder_consumes_msg_len :
    (∀ wt : WireTable, wt.wf →
      ∃ t, decodeBody wt.kind (encodeWire wt) (encodeWire wt).length =
        some (t, (encodeWire wt).length)) ∧
    (∀ (k : EvKind) (body : List Nat) (msgLen : Nat) (t : EventTable) (p : Nat),
      decodeBody k body msgLen = some (t, p) → msgLen ≤ p) ∧
    (∀ (body : List Nat) (pos : Nat) (ev : ValueEvent) (p' : Nat),
      parseValueRec body pos = some (ev, p') → pos < p') ∧
    (∀ (body : List Nat) (pos : Nat) (ev : TextEvent) (p' : Nat),
      parseTextRec body pos = some (ev, p') → pos < p') ∧
    (∀ (body : List Nat) (pos : Nat) (ev : DaytimerEvent) (p' : Nat),
      parseDaytimerRec body pos = some (ev, p') → pos < p') ∧
    (∀ (body : List Nat) (pos : Nat) (ev : WeatherEvent) (p' : Nat),
      parseWeatherRec body pos = some (ev, p') → pos < p') := by
  refine ⟨?_, fun k body msgLen t p h => decodeBody_final h,
    parseValueRec_mono, parseTextRec_mono, parseDaytimerRec_mono,
    parseWeatherRec_mono⟩
  intro wt hwf
  cases wt with
  | value recs =>
    simp only [WireTable.kind, encodeWire, decodeBody]
    obtain ⟨evs, hl⟩ := parseLoop_encode parseValueRec parseValueRec_mono
      encValueRec WValueRec.wf
      (fun body pos w rest hw hdrop hpos => parseValueRec_encode hw hdrop hpos)
      (fun w hw => by simp only [encValueRec, List.length_append, hw.1]; omega)
      recs ((recs.map encValueRec).flatten) 0 [] hwf rfl (Nat.zero_le _)
    exact ⟨_, by rw [hl]; rfl⟩
  | text recs =>
    simp only [WireTable.kind, encodeWire, decodeBody]
    obtain ⟨evs, hl⟩ := parseLoop_encode parseTextRec parseTextRec_mono
      encTextRec WTextRec.wf
      (fun body pos w rest hw hdrop hpos => parseTextRec_encode hw hdrop hpos)
      (fun w hw => by simp only [encTextRec, List.length_append, hw.1]; omega)
      recs ((recs.map encTextRec).flatten) 0 [] hwf rfl (Nat.zero_le _)
    exact ⟨_, by rw [hl]; rfl⟩
  | daytimer recs =>
    simp only [WireTable.kind, encodeWire, decodeBody]
    obtain ⟨evs, hl⟩ := parseLoop_encode parseDaytimerRec parseDaytimerRec_mono
      encDaytimerRec WDaytimerRec.wf
      (fun body pos w rest hw hdrop hpos => parseDaytimerRec_encode hw hdrop hpos)
      (fun w hw => by simp only [encDaytimerRec, List.length_append, hw.1]; omega)
      recs ((recs.map encDaytimerRec).flatten) 0 [] hwf rfl (Nat.zero_le _)
    exact ⟨_, by rw [hl]; rfl⟩
  | weather recs =>
    simp only [WireTable.kind, encodeWire, decodeBody]
    obtain ⟨evs, hl⟩ := parseLoop_encode parseWeatherRec parseWeatherRec_mono
      encWeatherRec WWeatherRec.wf
      (fun body pos w rest hw hdrop hpos => parseWeatherRec_encode hw hdrop hpos)
      (fun w hw => by simp only [encWeatherRec, List.length_append, hw.1]; omega)
      recs ((recs.map encWeatherRec).flatten) 0 [] hwf rfl (Nat.zero_le _)
    exact ⟨_, by rw [hl]; rfl⟩

/-- Witness for C2: a synthesized single-record value table decodes to its
full length, and a concrete 24-byte value record strictly advances the
cursor. -/
theorem C2_witness :
    (∃ t, decodeBody
        (WireTable.value [⟨List.replicate 16 0, List.replicate 8 0⟩]).kind
        (encodeWire (WireTable.value [⟨List.replicate 16 0, List.replicate 8 0⟩]))
        (encodeWire
          (WireTable.value [⟨List.replicate 16 0, List.replicate 8 0⟩])).length =
      some (t, (encodeWire
        (WireTable.value [⟨List.replicate 16 0, List.replicate 8 0⟩])).length)) ∧
    (0 : Nat) < 24 :=
  ⟨C2_decoder_consumes_msg_len.1
      (WireTable.value [⟨List.replicate 16 0, List.replicate 8 0⟩])
      (by
        intro r hr
        simp only [WireTable.wf, List.mem_singleton] at hr
        subst hr
        exact ⟨rfl, rfl⟩),
    C2_decoder_consumes_msg_len.2.2.1 (List.replicate 24 0) 0
      ⟨"00000000-0000-0000-0000000000000000", List.replicate 8 0⟩ 24
      (by decide)⟩

/-- Counterexample for C2 as stated: a value-event body of 48 bytes decoded
with `msg_len = 25` succeeds, produces a second record read entirely from
positions past `msg_len`, and leaves the cursor at 48 ≠ 25 — the decoder
does not refuse records that read past `msg_len` and does not end exactly
at `msg_len`. -/
theorem C2_counterexample :
    decodeBody EvKind.value (List.replicate 48 0) 25 =
      some (EventTable.ValueEvents
        [⟨"00000000-0000-0000-0000000000000000", List.replicate 8 0⟩,
         ⟨"00000000-0000-0000-0000000000000000", List.replicate 8 0⟩], 48) ∧
    (48 : Nat) ≠ 25 := by
  constructor
  · simp only [decodeBody]
    unfold parseLoop
    rw [if_pos (by norm_num)]
    rw [show parseValueRec (List.replicate 48 0) 0 =
      some (⟨"00000000-0000-0000-0000000000000000", List.replicate 8 0⟩, 24)
      from by decide]
    unfold parseLoop
    rw [if_pos (by norm_num)]
    rw [show parseValueRec (List.replicate 48 0) 24 =
      some (⟨"00000000-0000-0000-0000000000000000", List.replicate 8 0⟩, 48)
      from by decide]
    unfold parseLoop
    rw [if_neg (by norm_num)]
    rfl
  · decide

/-- Claim C5:.  For every `TextEvent` record whose text-length field reads as
`L`, the decoder's pad skip equals `(4 − L mod 4) mod 4`, and the cursor
position after the record is the position of the text field (36 bytes past
the record start) plus `L + ((4 − L mod 4) mod 4)`: the total advance for
the text field is exactly `L` text bytes plus the padding to the next
multiple of 4. -/
theorem C5_text_padding {body : List Nat} {pos L : Nat} {ev : TextEvent}
    {p' : Nat} (hL : readU32LE body (pos + 32) = some L)
    (h : parseTextRec body pos = some (ev, p')) :
    padOf L = (4 - L % 4) % 4 ∧ p' = pos + 36 + (L + (4 - L % 4) % 4) := by
  refine ⟨padOf_eq L, ?_⟩
  unfold parseTextRec at h
  cases h1 : parse_uuid_at body pos with
  | none => simp [h1] at h
  | some u =>
  cases h2 : parse_uuid_at body (pos + 16) with
  | none => simp [h1, h2] at h
  | some icon =>
  rw [h1, h2, hL] at h
  simp only [Option.bind_eq_bind, Option.some_bind] at h
  cases h4 : readBytes body (pos + 36) L with
  | none => rw [h4] at h; cases h
  | some buf =>
  rw [h4] at h
  simp only [Option.some_bind] at h
  by_cases h5 : utf8Valid buf = true
  · rw [if_pos h5] at h
    simp only [Option.some.injEq, Prod.mk.injEq] at h
    obtain ⟨-, h⟩ := h
    rw [padOf_eq L] at h
    omega
  · rw [if_neg h5] at h
    cases h

/-- Witness for C5: the 40-byte text-event body with text `"hi"` (length 2,
2 bytes of padding). -/
theorem C5_witness :
    padOf 2 = (4 - 2 % 4) % 4 ∧
      (40 : Nat) = 0 + 36 + (2 + (4 - 2 % 4) % 4) :=
  @C5_text_padding (List.replicate 32 0 ++ [2, 0, 0, 0, 104, 105, 0, 0]) 0 2
    ⟨"00000000-0000-0000-0000000000000000",
      "00000000-0000-0000-0000000000000000", [104, 105]⟩ 40
    (by decide) (by decide)

theorem mapLookup_insert (m : List (String × LoxoneState)) (k u : String)
    (v : LoxoneState) :
    mapLookup (hashMapInsert m k v) u = if k = u then some v else mapLookup m u := by
  induction m with
  | nil =>
    simp only [hashMapInsert, mapLookup]
  | cons q m ih =>
    simp only [hashMapInsert]
    by_cases hqk : q.1 = k
    · rw [if_pos hqk]
      simp only [mapLookup]
      by_cases hku : k = u
      · rw [if_pos hku, if_pos hku]
      · rw [if_neg hku, if_neg hku, if_neg (by rw [hqk]; exact hku)]
    · rw [if_neg hqk]
      simp only [mapLookup]
      by_cases hqu : q.1 = u
      · rw [if_pos hqu, if_neg (by rw [← hqu]; exact fun hh => hqk hh.symm)]
        rw [if_pos hqu]
      · rw [if_neg hqu, ih, if_neg hqu]

theorem keyCount_insert_other (m : List (String × LoxoneState)) {k u : String}
    (v : LoxoneState) (h : k ≠ u) :
    keyCount (hashMapInsert m k v) u = keyCount m u := by
  induction m with
  | nil => simp [hashMapInsert, keyCount, h]
  | cons q m ih =>
    simp only [hashMapInsert]
    by_cases hqk : q.1 = k
    · rw [if_pos hqk]
      simp only [keyCount]
      rw [if_neg h, if_neg (show ¬ q.1 = u from by rw [hqk]; exact h)]
    · rw [if_neg hqk]
      simp only [keyCount, ih]

theorem keyCount_insert_self (m : List (String × LoxoneState)) (k : String)
    (v : LoxoneState) (h : keyCount m k ≤ 1) :
    keyCount (hashMapInsert m k v) k = 1 := by
  induction m with
  | nil => simp [hashMapInsert, keyCount]
  | cons q m ih =>
    simp only [hashMapInsert]
    by_cases hqk : q.1 = k
    · rw [if_pos hqk]
      have hm : keyCount m k = 0 := by
        simp [keyCount, hqk] at h
        omega
      simp [keyCount, hm]
    · rw [if_neg hqk]
      simp only [keyCount, if_neg hqk] at h ⊢
      have := ih (by omega)
      omega

theorem keyCount_fold_le :
    ∀ (pairs m : List (String × LoxoneState)), (∀ x, keyCount m x ≤ 1) →
      ∀ x, keyCount (pairs.foldl (fun m p => hashMapInsert m p.1 p.2) m) x ≤ 1 := by
  intro pairs
  induction pairs with
  | nil => intro m h x; exact h x
  | cons p ps ih =>
    intro m h x
    simp only [List.foldl_cons]
    apply ih
    intro y
    by_cases hpy : p.1 = y
    · subst hpy
      rw [keyCount_insert_self m p.1 p.2 (h p.1)]
    · rw [keyCount_insert_other m p.2 hpy]
      exact h y

theorem assocLast_eq_none_iff :
    ∀ (pairs : List (String × LoxoneState)) (u : String),
      assocLast pairs u = none ↔ keyCount pairs u = 0 := by
  intro pairs u
  induction pairs with
  | nil => simp [assocLast, keyCount]
  | cons p ps ih =>
    simp only [assocLast, keyCount]
    cases hal : assocLast ps u with
    | some v =>
      simp only [hal] at ih ⊢
      constructor
      · intro hh; cases hh
      · intro hh
        exfalso
        have : ¬ keyCount ps u = 0 := fun h0 => by
          have := ih.mpr h0
          cases this
        omega
    | none =>
      simp only [hal] at ih ⊢
      have hps : keyCount ps u = 0 := ih.mp trivial
      by_cases hpu : p.1 = u
      · rw [if_pos hpu, if_pos hpu]
        constructor
        · intro hh; cases hh
        · intro hh; omega
      · rw [if_neg hpu, if_neg hpu]
        simp [hps]

theorem mapLookup_foldl_insert :
    ∀ (pairs m : List (String × LoxoneState)) (u : String),
      mapLookup (pairs.foldl (fun m p => hashMapInsert m p.1 p.2) m) u =
        match assocLast pairs u with
        | some v => some v
        | none => mapLookup m u := by
  intro pairs
  induction pairs with
  | nil => intro m u; rfl
  | cons p ps ih =>
    intro m u
    simp only [List.foldl_cons]
    rw [ih]
    simp only [assocLast]
    cases hal : assocLast ps u with
    | some v => rfl
    | none =>
      simp only
      rw [mapLookup_insert]
      by_cases hpu : p.1 = u
      · rw [if_pos hpu, if_pos hpu]
      · rw [if_neg hpu, if_neg hpu]

theorem mapLookup_eq_none_iff :
    ∀ (m : List (String × LoxoneState)) (u : String),
      mapLookup m u = none ↔ keyCount m u = 0 := by
  intro m u
  induction m with
  | nil => simp [mapLookup, keyCount]
  | cons p m ih =>
    simp only [mapLookup, keyCount]
    by_cases hpu : p.1 = u
    · rw [if_pos hpu, if_pos hpu]
      constructor
      · intro hh; cases hh
      · intro hh; omega
    · rw [if_neg hpu, if_neg hpu]
      simpa using ih

theorem snapshotOfTables_eq (ts : List EventTable) :
    snapshotOfTables ts = hashMapOfPairs ((ts.map eventTablePairs).flatten) := by
  have haux : ∀ (ts : List EventTable) (m : List (String × LoxoneState)),
      ts.foldl (fun m t =>
        (eventTablePairs t).foldl (fun m p => hashMapInsert m p.1 p.2) m) m =
      ((ts.map eventTablePairs).flatten).foldl
        (fun m p => hashMapInsert m p.1 p.2) m := by
    intro ts
    induction ts with
    | nil => intro m; rfl
    | cons t ts ih =>
      intro m
      simp only [List.foldl_cons, List.map_cons, List.flatten_cons,
        List.foldl_append]
      exact ih _
  exact haux ts []

/-- Claim C1: (amended).  Flattening an event table into the UUID → state map
delivers (a) for every UUID the state of the *last* record with that UUID
in wire order, (b) at most one binding per UUID, and (c) a binding exactly
for the UUIDs occurring among the records.  (As stated the claim is false:
the records are collected into a `HashMap`, so duplicate UUIDs collapse to
one binding — see the counterexample — and the subscriber receives the
map's unspecified iteration order, not wire order, within one table.) -/
theorem C1_flatten_map (t : EventTable) :
    (∀ u, mapLookup (eventTableIntoMap t) u = assocLast (eventTablePairs t) u) ∧
    (∀ u, keyCount (eventTableIntoMap t) u ≤ 1) ∧
    (∀ u, mapLookup (eventTableIntoMap t) u = none ↔
      keyCount (eventTablePairs t) u = 0) := by
  refine ⟨?_, ?_, ?_⟩
  · intro u
    unfold eventTableIntoMap hashMapOfPairs
    rw [mapLookup_foldl_insert]
    cases assocLast (eventTablePairs t) u <;> rfl
  · intro u
    exact keyCount_fold_le (eventTablePairs t) [] (fun x => by simp [keyCount]) u
  · intro u
    unfold eventTableIntoMap hashMapOfPairs
    rw [mapLookup_foldl_insert]
    cases hal : assocLast (eventTablePairs t) u with
    | some v =>
      constructor
      · intro hh; cases hh
      · intro hh
        have := (assocLast_eq_none_iff (eventTablePairs t) u).mpr hh
        rw [hal] at this
        cases this
    | none =>
      simp only
      constructor
      · intro _
        exact (assocLast_eq_none_iff (eventTablePairs t) u).mp hal
      · intro _
        exact (mapLookup_eq_none_iff [] u).mpr rfl

/-- Counterexample for C1 as stated: a value-event table with two records
carrying the same UUID flattens to a single `(UUID, state)` pair — the
second record's value — not one pair per record, and the first record's
pair is not delivered. -/
theorem C1_counterexample :
    eventTableIntoMap (EventTable.ValueEvents
      [⟨"00000000-0000-0000-0000000000000000", List.replicate 8 0⟩,
       ⟨"00000000-0000-0000-0000000000000000", List.replicate 8 1⟩]) =
      [("00000000-0000-0000-0000000000000000",
        LoxoneState.Value (List.replicate 8 1))] ∧
    (eventTablePairs (EventTable.ValueEvents
      [⟨"00000000-0000-0000-0000000000000000", List.replicate 8 0⟩,
       ⟨"00000000-0000-0000-0000000000000000", List.replicate 8 1⟩])).length = 2 := by
  constructor
  · rfl
  · rfl

/-- Witness for C1: evaluating the flattening on a concrete two-record
table with distinct UUIDs. -/
theorem C1_witness :
    mapLookup (eventTableIntoMap (EventTable.ValueEvents
        [⟨"a", [0]⟩, ⟨"b", [1]⟩])) "a" =
      assocLast (eventTablePairs (EventTable.ValueEvents
        [⟨"a", [0]⟩, ⟨"b", [1]⟩])) "a" :=
  (C1_flatten_map (EventTable.ValueEvents [⟨"a", [0]⟩, ⟨"b", [1]⟩])).1 "a"

/-- Claim C10:.  Within one event table, duplicate UUIDs leave exactly one
binding in the flattened map — the last record in wire order — and the
initial snapshot folded from a list of tables behaves as inserting all
their pairs left to right: for each UUID the last pair across the tables
wins. -/
theorem C10_duplicates_last_wins :
    (∀ (t : EventTable) (u : String), 2 ≤ keyCount (eventTablePairs t) u →
      keyCount (eventTableIntoMap t) u = 1 ∧
      mapLookup (eventTableIntoMap t) u = assocLast (eventTablePairs t) u) ∧
    (∀ (ts : List EventTable) (u : String),
      mapLookup (snapshotOfTables ts) u =
        assocLast ((ts.map eventTablePairs).flatten) u) := by
  constructor
  · intro t u hdup
    have hlook := (C1_flatten_map t).1 u
    refine ⟨?_, hlook⟩
    have hle := (C1_flatten_map t).2.1 u
    have hne : mapLookup (eventTableIntoMap t) u ≠ none := by
      rw [hlook]
      intro hn
      have := (assocLast_eq_none_iff (eventTablePairs t) u).mp hn
      omega
    have h0 : keyCount (eventTableIntoMap t) u ≠ 0 := by
      intro h0
      exact hne ((mapLookup_eq_none_iff _ u).mpr h0)
    omega
  · intro ts u
    rw [snapshotOfTables_eq]
    unfold hashMapOfPairs
    rw [mapLookup_foldl_insert]
    cases assocLast ((ts.map eventTablePairs).flatten) u <;> rfl

/-- Witness for C10: the duplicate-UUID table evaluated concretely. -/
theorem C10_witness :
    2 ≤ keyCount (eventTablePairs (EventTable.ValueEvents
        [⟨"a", [0]⟩, ⟨"a", [1]⟩])) "a" ∧
    keyCount (eventTableIntoMap (EventTable.ValueEvents
        [⟨"a", [0]⟩, ⟨"a", [1]⟩])) "a" = 1 ∧
    mapLookup (eventTableIntoMap (EventTable.ValueEvents
        [⟨"a", [0]⟩, ⟨"a", [1]⟩])) "a" =
      assocLast (eventTablePairs (EventTable.ValueEvents
        [⟨"a", [0]⟩, ⟨"a", [1]⟩])) "a" :=
  ⟨by decide,
    C10_duplicates_last_wins.1 (EventTable.ValueEvents [⟨"a", [0]⟩, ⟨"a", [1]⟩])
      "a" (by decide)⟩

/-- Claim C4: is a code bug: the assertion at ws.rs:541 compares `header[0]`
with itself, so the `0x03` magic is never validated.  The 8-byte header
`00 06 00 00 00 00 00 00` — whose byte 0 is not `0x03` — parses
successfully as a KeepAlive header with body length 0 instead of failing;
an unknown type code (here 8) does abort as the claim says. -/
theorem C4_magic_not_checked :
    parse_msg_header [0, 6, 0, 0, 0, 0, 0, 0] =
      some (MessageType.KeepAlive, some 0) ∧
    parse_msg_header [3, 8, 0, 0, 0, 0, 0, 0] = none := by
  constructor
  · rfl
  · rfl

/-- Claim C6: is a code bug.  (a) `key_exchange` behaves as the claim states:
for every reply whose `LL.Code` string is not `"200"`, it returns
`InvalidStatusCode` carrying exactly that string and leaves the client's
session slot unchanged (the session is not adopted).  (b) But
`get_loxapp3_timestamp`, also named by the claim, panics on such replies:
the stray `assert_eq!` at ws.rs:300 fires before its (dead)
`InvalidStatusCode` arm, as evaluated on the `"401"` reply. -/
theorem C6_status_code_handling :
    (∀ (session_old : Option Session) (sess : Session)
        (reply_json : List (String × Json)) (ll : Json) (code : String),
      mapIndex reply_json "LL" = some ll →
      jsonAsStr (jsonIndex ll "Code") = some code →
      code ≠ "200" →
      key_exchange_reply session_old sess reply_json =
        some (session_old, Except.error (.InvalidStatusCode code))) ∧
    get_loxapp3_timestamp_reply
      [("LL", Json.obj [("Code", Json.str "401"), ("value", Json.str "")])] =
      none := by
  constructor
  · intro session_old sess reply_json ll code hll hcode hne
    unfold key_exchange_reply
    rw [hll]
    simp only [Option.bind_eq_bind, Option.some_bind, hcode]
    rw [if_neg hne]
  · rfl

/-- Witness for C6: a concrete `"401"` key-exchange reply, evaluated. -/
theorem C6_witness :
    key_exchange_reply none ⟨[], [], [], []⟩
      [("LL", Json.obj [("Code", Json.str "401"), ("value", Json.str "")])] =
      some (none, Except.error (KeyExchangeError.InvalidStatusCode "401")) :=
  C6_status_code_handling.1 none ⟨[], [], [], []⟩
    [("LL", Json.obj [("Code", Json.str "401"), ("value", Json.str "")])]
    (Json.obj [("Code", Json.str "401"), ("value", Json.str "")]) "401"
    rfl rfl (by decide)

theorem asciiUpper_hexDigit (n : Nat) :
    asciiUpper (hexDigit n).toNat = hexDigitUpper n := by
  have h : n % 16 < 16 := Nat.mod_lt _ (by norm_num)
  unfold hexDigit hexDigitUpper asciiUpper
  set m := n % 16 with hm
  interval_cases m <;> decide

theorem hexUpper_of_lower (bs : List Nat) :
    (hexAsciiLower bs).map asciiUpper = hexUpperAscii bs := by
  unfold hexAsciiLower hexUpperAscii
  induction bs with
  | nil => rfl
  | cons b bs ih =>
    simp only [List.map_cons, List.flatten_cons, List.map_append] at *
    rw [ih]
    congr 1
    show ((hexFixed 2 b).map Char.toNat).map asciiUpper = _
    rw [List.map_map]
    show [asciiUpper (hexDigit (b / 16)).toNat, asciiUpper (hexDigit b).toNat] =
      [hexDigitUpper (b / 16), hexDigitUpper b]
    rw [asciiUpper_hexDigit, asciiUpper_hexDigit]

/-- Claim C8:.  For every user, password, key and salt: with `"SHA1"` or
`"SHA256"`, `hash_pwd` returns `HMAC_H(key, user ++ ":" ++ inner)` where
`inner` is the uppercase hex of `H(pwd ++ ":" ++ salt)` under the matching
digest `H`; for every other algorithm string it fails (panics). -/
theorem C8_hash_pwd (sha1 sha256 : List Nat → List Nat)
    (user pwd key salt : List Nat) :
    (hash_pwd sha1 sha256 user pwd key salt "SHA1" =
      some (hmac sha1 key
        (user ++ [58] ++ hexUpperAscii (sha1 (pwd ++ [58] ++ salt))))) ∧
    (hash_pwd sha1 sha256 user pwd key salt "SHA256" =
      some (hmac sha256 key
        (user ++ [58] ++ hexUpperAscii (sha256 (pwd ++ [58] ++ salt))))) ∧
    (∀ alg : String, alg ≠ "SHA1" → alg ≠ "SHA256" →
      hash_pwd sha1 sha256 user pwd key salt alg = none) := by
  refine ⟨?_, ?_, ?_⟩
  · unfold hash_pwd
    show some (hmac sha1 key (user ++ [58] ++
      (hexAsciiLower (sha1 (pwd ++ [58] ++ salt))).map asciiUpper)) = _
    rw [hexUpper_of_lower]
  · unfold hash_pwd
    show some (hmac sha256 key (user ++ [58] ++
      (hexAsciiLower (sha256 (pwd ++ [58] ++ salt))).map asciiUpper)) = _
    rw [hexUpper_of_lower]
  · intro alg h1 h256
    unfold hash_pwd
    split
    · exact absurd rfl h1
    · exact absurd rfl h256
    · rfl

/-- Witness for C8: an unsupported algorithm string panics. -/
theorem C8_witness :
    hash_pwd (fun _ => []) (fun _ => []) [117] [112] [107] [115] "MD5" = none :=
  (C8_hash_pwd (fun _ => []) (fun _ => []) [117] [112] [107] [115]).2.2 "MD5"
    (by decide) (by decide)

theorem xorBytes_involutive :
    ∀ (a b : List Nat), a.length = b.length → xorBytes a (xorBytes a b) = b := by
  intro a
  induction a with
  | nil =>
    intro b h
    have hb : b = [] := List.length_eq_zero.mp (by simpa using h.symm)
    subst hb
    rfl
  | cons x a ih =>
    intro b h
    cases b with
    | nil => simp at h
    | cons y b =>
      simp only [List.length_cons] at h
      simp only [xorBytes, List.zipWith_cons_cons]
      rw [← Nat.xor_assoc, Nat.xor_self, Nat.zero_xor]
      rw [show List.zipWith (· ^^^ ·) a (List.zipWith (· ^^^ ·) a b) =
        xorBytes a (xorBytes a b) from rfl]
      rw [ih b (by omega)]

theorem xorBytes_length (a b : List Nat) :
    (xorBytes a b).length = min a.length b.length := by
  simp [xorBytes]

theorem cbc_roundtrip (E D : List Nat → List Nat)
    (hlen : ∀ b, b.length = 16 → (E b).length = 16)
    (hinv : ∀ b, b.length = 16 → D (E b) = b) :
    ∀ (bs : List (List Nat)) (prev : List Nat), prev.length = 16 →
      (∀ b ∈ bs, b.length = 16) →
      cbcDecryptBlocks D prev (cbcEncryptBlocks E prev bs) = bs := by
  intro bs
  induction bs with
  | nil => intro prev _ _; rfl
  | cons b bs ih =>
    intro prev hprev hbs
    have hb : b.length = 16 := hbs b (List.mem_cons_self b bs)
    have hxlen : (xorBytes prev b).length = 16 := by
      rw [xorBytes_length, hprev, hb]
      omega
    simp only [cbcEncryptBlocks, cbcDecryptBlocks, List.cons.injEq]
    constructor
    · rw [hinv _ hxlen]
      exact xorBytes_involutive prev b (by omega)
    · exact ih (E (xorBytes prev b)) (hlen _ hxlen)
        (fun x hx => hbs x (List.mem_cons_of_mem b hx))

theorem cbcEncryptBlocks_all16 (E : List Nat → List Nat)
    (hlen : ∀ b, b.length = 16 → (E b).length = 16) :
    ∀ (bs : List (List Nat)) (prev : List Nat), prev.length = 16 →
      (∀ b ∈ bs, b.length = 16) →
      ∀ c ∈ cbcEncryptBlocks E prev bs, c.length = 16 := by
  intro bs
  induction bs with
  | nil => intro prev _ _ c hc; cases hc
  | cons b bs ih =>
    intro prev hprev hbs c hc
    have hb : b.length = 16 := hbs b (List.mem_cons_self b bs)
    have hxlen : (xorBytes prev b).length = 16 := by
      rw [xorBytes_length, hprev, hb]
      omega
    simp only [cbcEncryptBlocks, List.mem_cons] at hc
    rcases hc with hc | hc
    · subst hc; exact hlen _ hxlen
    · exact ih (E (xorBytes prev b)) (hlen _ hxlen)
        (fun x hx => hbs x (List.mem_cons_of_mem b hx)) c hc

theorem chunks16_all16_fuel :
    ∀ (n : Nat) (l : List Nat), l.length ≤ n → l.length % 16 = 0 →
      ∀ b ∈ chunks16 l, b.length = 16 := by
  intro n
  induction n with
  | zero =>
    intro l hl _ b hb
    have : l = [] := List.length_eq_zero.mp (by omega)
    subst this
    rw [show chunks16 [] = [] from by unfold chunks16; rw [if_pos rfl]] at hb
    cases hb
  | succ n ih =>
    intro l hl hmod b hb
    by_cases hnil : l = []
    · subst hnil
      rw [show chunks16 [] = [] from by unfold chunks16; rw [if_pos rfl]] at hb
      cases hb
    · unfold chunks16 at hb
      rw [if_neg hnil] at hb
      have hlen0 : l.length ≠ 0 := fun h0 => hnil (List.length_eq_zero.mp h0)
      have h16 : 16 ≤ l.length := by omega
      simp only [List.mem_cons] at hb
      rcases hb with hb | hb
      · subst hb
        simp only [List.length_take]
        omega
      · exact ih (l.drop 16) (by simp only [List.length_drop]; omega)
          (by simp only [List.length_drop]; omega) b hb

theorem chunks16_all16 (l : List Nat) (hmod : l.length % 16 = 0) :
    ∀ b ∈ chunks16 l, b.length = 16 :=
  chunks16_all16_fuel l.length l (Nat.le_refl _) hmod

theorem chunks16_flatten :
    ∀ (bs : List (List Nat)), (∀ b ∈ bs, b.length = 16) →
      chunks16 bs.flatten = bs := by
  intro bs
  induction bs with
  | nil =>
    intro _
    show chunks16 [] = []
    unfold chunks16
    rw [if_pos rfl]
  | cons b bs ih =>
    intro hbs
    have hb : b.length = 16 := hbs b (List.mem_cons_self b bs)
    have hbne : b ++ bs.flatten ≠ [] := by
      intro hh
      have : b = [] := (List.append_eq_nil.mp hh).1
      rw [this] at hb
      cases hb
    simp only [List.flatten_cons]
    unfold chunks16
    rw [if_neg hbne]
    rw [show (16 : Nat) = b.length from hb.symm, List.take_left, List.drop_left]
    rw [ih (fun x hx => hbs x (List.mem_cons_of_mem b hx))]

theorem chunks16_flatten_eq_fuel :
    ∀ (n : Nat) (l : List Nat), l.length ≤ n → l.length % 16 = 0 →
      (chunks16 l).flatten = l := by
  intro n
  induction n with
  | zero =>
    intro l hl _
    have : l = [] := List.length_eq_zero.mp (by omega)
    subst this
    rw [show chunks16 [] = [] from by unfold chunks16; rw [if_pos rfl]]
    rfl
  | succ n ih =>
    intro l hl hmod
    by_cases hnil : l = []
    · subst hnil
      rw [show chunks16 [] = [] from by unfold chunks16; rw [if_pos rfl]]
      rfl
    · unfold chunks16
      rw [if_neg hnil]
      simp only [List.flatten_cons]
      have hlen0 : l.length ≠ 0 := fun h0 => hnil (List.length_eq_zero.mp h0)
      have h16 : 16 ≤ l.length := by omega
      rw [ih (l.drop 16) (by simp only [List.length_drop]; omega)
        (by simp only [List.length_drop]; omega)]
      exact List.take_append_drop 16 l

theorem pkcs7unpad_pad (m : List Nat) : pkcs7unpad (pkcs7pad m) = some m := by
  set p := 16 - m.length % 16 with hp
  have hp1 : 1 ≤ p := by
    have : m.length % 16 < 16 := Nat.mod_lt _ (by norm_num)
    omega
  have hplen : (pkcs7pad m).length = m.length + p := by
    simp [pkcs7pad, ← hp]
  have hlast : (pkcs7pad m).getLast? = some p := by
    show (m ++ List.replicate p p).getLast? = some p
    rw [List.getLast?_append_of_ne_nil m
      (by simp only [ne_eq, List.replicate_eq_nil_iff]; omega)]
    rw [List.getLast?_replicate]
    simp only [if_neg (show ¬ p = 0 by omega)]
  have hdrop : (pkcs7pad m).drop ((pkcs7pad m).length - p) = List.replicate p p := by
    rw [hplen]
    show List.drop (m.length + p - p) (m ++ List.replicate p p) = _
    rw [show m.length + p - p = m.length from by omega, List.drop_left]
  have htake : (pkcs7pad m).take ((pkcs7pad m).length - p) = m := by
    rw [hplen]
    show List.take (m.length + p - p) (m ++ List.replicate p p) = m
    rw [show m.length + p - p = m.length from by omega, List.take_left]
  unfold pkcs7unpad
  simp only [hlast]
  rw [if_pos ?hcond]
  · rw [htake]
  case hcond =>
    refine ⟨hp1, by omega, ?_⟩
    rw [hdrop]
    simp only [List.all_eq_true, List.mem_replicate, decide_eq_true_eq]
    intro b hb
    simp [hb.2]

/-- Claim C7:.  For every command and session, AES-256-CBC decrypting the
output of `encrypt_cmd` with the session's key and IV and removing the
PKCS7 padding yields exactly the plaintext
`"salt/" ++ hex(session.salt) ++ "/" ++ cmd ++ "\0"`, trailing NUL
included — for any block cipher pair `(E, D)` that is a
length-preserving inverse on 16-byte blocks, as AES-256 under the
session's key is. -/
theorem C7_encrypt_cmd_roundtrip (E D : List Nat → List Nat)
    (session : Session) (cmd : List Nat)
    (hiv : session.rsa_iv.length = 16)
    (hlen : ∀ b, b.length = 16 → (E b).length = 16)
    (hinv : ∀ b, b.length = 16 → D (E b) = b) :
    cbcDecryptPkcs7 D session.rsa_iv (encrypt_cmd E session cmd) =
      some (saltedCmd session.salt cmd) := by
  unfold cbcDecryptPkcs7 encrypt_cmd
  set m := saltedCmd session.salt cmd with hm
  have hmod : (pkcs7pad m).length % 16 = 0 := by
    simp only [pkcs7pad, List.length_append, List.length_replicate]
    omega
  have hall16 := chunks16_all16 (pkcs7pad m) hmod
  have hct16 := cbcEncryptBlocks_all16 E hlen (chunks16 (pkcs7pad m))
    session.rsa_iv hiv hall16
  rw [chunks16_flatten _ hct16]
  rw [cbc_roundtrip E D hlen hinv (chunks16 (pkcs7pad m)) session.rsa_iv hiv hall16]
  rw [chunks16_flatten_eq_fuel (pkcs7pad m).length _ (Nat.le_refl _) hmod]
  exact pkcs7unpad_pad m

/-- Witness for C7: the identity permutation on blocks (a legitimate
instantiation of the hypotheses) on a session with a 16-byte IV and a
one-byte command. -/
theorem C7_witness :
    cbcDecryptPkcs7 (fun b => b) (⟨List.replicate 32 0, List.replicate 16 0,
        [0, 0], []⟩ : Session).rsa_iv
      (encrypt_cmd (fun b => b)
        ⟨List.replicate 32 0, List.replicate 16 0, [0, 0], []⟩ [97]) =
      some (saltedCmd [0, 0] [97]) :=
  C7_encrypt_cmd_roundtrip (fun b => b) (fun b => b)
    ⟨List.replicate 32 0, List.replicate 16 0, [0, 0], []⟩ [97]
    (by decide) (fun b hb => hb) (fun b _ => rfl)

/-- Claim C9:.  For every command: without an active session `send_recv_enc`
fails with a permission error and sends no frame; with an active session
it sends exactly one frame, the wrapped form
`"jdev/sys/enc/" ++ percent_encode(base64_no_pad(encrypt_command(cmd, session)))`. -/
theorem C9_send_recv_enc (E : List Nat → List Nat) (cmd : List Nat) :
    send_recv_enc E none cmd = ([], some WsError.PermissionDenied) ∧
    ∀ s : Session, send_recv_enc E (some s) cmd =
      ([asciiOf "jdev/sys/enc/" ++
        percentEncode (base64EncodeNoPad (encrypt_cmd E s cmd))], none) := by
  constructor
  · rfl
  · intro s
    rfl

end Loxone
